import Mathlib

/-!
# GPIO-MIDI: the wire format, the server dispatcher and the client scanner

A shallow embedding of `gpio_midi.h`, `gpio_midi.c` (the server) and
`gpio_midi_rpi.c` (the client).  Machine integers are `Nat` or `Int`; a
conversion to `uint8_t` is an explicit `% 256`.  Everything the operating
system answers (readiness reports, results of `accept4`, `read`, `write`,
`ioctl`) is an explicit input of the step that consumes it.
-/

namespace GpioMidi

/-! ## gpio_midi.h -/

def CONFIG_MAX_GPIO_TIMEOUT : Nat := 64 * 1024

def CONFIG_MAX_EPOLL_EVENTS : Nat := 4

def CONFIG_MAX_MIDI_EVENTS : Nat := 16

/-- The wire record of `gpio_midi.h`: two `uint8_t` fields, no padding, so
`sizeof(midi_event_t) = 2`. -/
structure midi_event_t where
  key : Nat
  velocity : Nat
deriving DecidableEq, Repr

/-- Size in bytes of one `midi_event_t`. -/
def sizeof_midi_event_t : Nat := 2

/-- Result of running a loop of the program on a finite prefix of what the
operating system answers: the loop is either still running in state `s`, or it
has executed `return code` in state `s`. -/
inductive outcome (κ σ : Type) where
  | running (s : σ)
  | returned (code : κ) (s : σ)
deriving DecidableEq, Repr

/-- Sequencing of loop bodies: a body runs only while the loop has not returned. -/
def outcome.andThen {κ σ : Type} (o : outcome κ σ) (f : σ → outcome κ σ) : outcome κ σ :=
  match o with
  | .running s => f s
  | .returned c s => .returned c s

/-- State the loop is in, returned or not. -/
def outcome.state {κ σ : Type} : outcome κ σ → σ
  | .running s => s
  | .returned _ s => s

/-- Code the loop returned, if it did. -/
def outcome.code {κ σ : Type} : outcome κ σ → Option κ
  | .running _ => none
  | .returned c _ => some c

/-! ## The bytes on the wire -/

/-- Bytes the client hands to `write(server_fd, midi_events, events_size)`: the
array elements in order, each as its `key` byte followed by its `velocity` byte. -/
def wire_bytes : List midi_event_t → List Nat
  | [] => []
  | e :: es => e.key :: e.velocity :: wire_bytes es

/-- Effect of a successful `read(fd, midi_events, sizeof(midi_events))` on the
server buffer: the received bytes `data` are stored from offset 0, whatever the
buffer held beyond them (`stale`) is left as it was. -/
def read_into (stale data : List Nat) : List Nat :=
  data ++ stale.drop data.length

/-- Element `midi_events[i]` of the server buffer seen as `midi_event_t[]`. -/
def midi_event_at (buffer : List Nat) (i : Nat) : midi_event_t :=
  { key := buffer.getD (sizeof_midi_event_t * i) 0
    velocity := buffer.getD (sizeof_midi_event_t * i + 1) 0 }

/-- The entries `midi_events[0 .. result)` that the translation loop of the
server visits after `read` returned `nbytes` and `result /= sizeof(midi_event_t)`. -/
def decoded_events (buffer : List Nat) (nbytes : Nat) : List midi_event_t :=
  (List.range (nbytes / sizeof_midi_event_t)).map (midi_event_at buffer)

/-- The byte `arg[k]` of a C string given by its characters: the characters,
then the terminating NUL. -/
def c_string_at (arg : List Char) (k : Nat) : Char :=
  arg.getD k (Char.ofNat 0)

/-! ## gpio_midi.c: the server -/

namespace Server

/-- Readiness flag `EPOLLIN` of `<sys/epoll.h>`. -/
def EPOLLIN : Nat := 0x001

/-- Readiness flag `EPOLLET` of `<sys/epoll.h>`. -/
def EPOLLET : Nat := 2 ^ 31

/-- Event type `SNDRV_SEQ_EVENT_NOTEON` of `<sound/asequencer.h>`. -/
def SNDRV_SEQ_EVENT_NOTEON : Nat := 6

/-- Event type `SNDRV_SEQ_EVENT_NOTEOFF` of `<sound/asequencer.h>`. -/
def SNDRV_SEQ_EVENT_NOTEOFF : Nat := 7

/-- Flag value `SNDRV_SEQ_EVENT_LENGTH_FIXED` of `<sound/asequencer.h>`. -/
def SNDRV_SEQ_EVENT_LENGTH_FIXED : Nat := 0

/-- Queue id `SNDRV_SEQ_QUEUE_DIRECT` of `<sound/asequencer.h>`. -/
def SNDRV_SEQ_QUEUE_DIRECT : Nat := 253

/-- The address pair `struct snd_seq_addr`. -/
structure snd_seq_addr where
  client : Nat
  port : Nat
deriving DecidableEq, Repr

/-- The member `time` of `struct snd_seq_event`. -/
structure snd_seq_real_time where
  tv_sec : Nat
  tv_nsec : Nat
deriving DecidableEq, Repr

/-- The member `data.note` of `struct snd_seq_event`. -/
structure snd_seq_ev_note where
  channel : Nat
  note : Nat
  velocity : Nat
  off_velocity : Nat
  duration : Nat
deriving DecidableEq, Repr

/-- The sequencer command `struct snd_seq_event`; the `data` union is seen
through its `note` member, the only one the server writes. -/
structure snd_seq_event where
  type : Nat
  flags : Nat
  tag : Int
  queue : Nat
  time : snd_seq_real_time
  source : snd_seq_addr
  dest : snd_seq_addr
  data : snd_seq_ev_note
deriving DecidableEq, Repr

/-- Size in bytes of one `struct snd_seq_event`. -/
def sizeof_snd_seq_event : Nat := 28

/-- The command after `memset(seq_event, 0, sizeof(seq_event[0]))`. -/
def snd_seq_event.zeroed : snd_seq_event :=
  { type := 0, flags := 0, tag := 0, queue := 0
    time := { tv_sec := 0, tv_nsec := 0 }
    source := { client := 0, port := 0 }
    dest := { client := 0, port := 0 }
    data := { channel := 0, note := 0, velocity := 0, off_velocity := 0, duration := 0 } }

/-- The fields of `common_t` that `main_loop` reads. -/
structure common_t where
  epoll_fd : Int
  server_fd : Int
  seq_fd : Int
  seq_addr : snd_seq_addr
deriving DecidableEq, Repr

/-- The enumeration `action_code_t` of the server, enumerators in source order. -/
inductive action_code_t where
  | SUCCESS_ACTION_CODE
  | UNDEFINED_PROCESS_ACTION_CODE
  | OPEN_LOG_FILE_ACTION_CODE
  | READ_LOG_FILE_ACTION_CODE
  | WRITE_LOG_FILE_ACTION_CODE
  | SIGSEGV_ACTION_CODE
  | SIGTERM_ACTION_CODE
  | OPEN_PID_FILE_ACTION_CODE
  | READ_PID_FILE_ACTION_CODE
  | WRITE_PID_FILE_ACTION_CODE
  | FORK_ACTION_CODE
  | CREATE_SERVER_SOCKET_ACTION_CODE
  | BIND_SERVER_SOCKET_ACTION_CODE
  | LISTEN_SERVER_SOCKET_ACTION_CODE
  | EPOLL_CREATE_ACTION_CODE
  | EPOLL_ADD_SERVER_SOCKET_ACTION_CODE
  | OPEN_SND_SEQ_ACTION_CODE
  | EPOLL_WAIT_ACTION_CODE
  | ACCEPT_CLIENT_ACTION_CODE
  | EPOLL_ADD_CLIENT_SOCKET_ACTION_CODE
  | READ_EVENTS_ACTION_CODE
  | WRITE_SEQ_EVENTS_ACTION_CODE
  | CONNECT_SERVER_ACTION_CODE
  | SEND_EVENTS_ACTION_CODE
deriving DecidableEq, Repr

/-- The enumerators declared after `UNDEFINED_PROCESS_ACTION_CODE = -128`, in
source order; none has an initialiser, so each is its predecessor plus one. -/
def action_code_t.after_undefined : List action_code_t :=
  [ .OPEN_LOG_FILE_ACTION_CODE, .READ_LOG_FILE_ACTION_CODE, .WRITE_LOG_FILE_ACTION_CODE,
    .SIGSEGV_ACTION_CODE, .SIGTERM_ACTION_CODE,
    .OPEN_PID_FILE_ACTION_CODE, .READ_PID_FILE_ACTION_CODE, .WRITE_PID_FILE_ACTION_CODE,
    .FORK_ACTION_CODE, .CREATE_SERVER_SOCKET_ACTION_CODE, .BIND_SERVER_SOCKET_ACTION_CODE,
    .LISTEN_SERVER_SOCKET_ACTION_CODE, .EPOLL_CREATE_ACTION_CODE,
    .EPOLL_ADD_SERVER_SOCKET_ACTION_CODE, .OPEN_SND_SEQ_ACTION_CODE,
    .EPOLL_WAIT_ACTION_CODE, .ACCEPT_CLIENT_ACTION_CODE, .EPOLL_ADD_CLIENT_SOCKET_ACTION_CODE,
    .READ_EVENTS_ACTION_CODE, .WRITE_SEQ_EVENTS_ACTION_CODE,
    .CONNECT_SERVER_ACTION_CODE, .SEND_EVENTS_ACTION_CODE ]

/-- The integer value of an enumerator of `action_code_t`. -/
def action_code_t.value (c : action_code_t) : Int :=
  match c with
  | .SUCCESS_ACTION_CODE => 0
  | .UNDEFINED_PROCESS_ACTION_CODE => -128
  | c => -128 + 1 + (action_code_t.after_undefined.indexOf c : Nat)

/-- Body of the translation loop of `main_loop` (lines 122-134): the command
built in `seq_events[i]` from `midi_events[i]`. -/
def seq_event_of (seq_addr : snd_seq_addr) (event : midi_event_t) : snd_seq_event :=
  let seq_event := snd_seq_event.zeroed
  let seq_event := { seq_event with
    type := if event.velocity > 0 then SNDRV_SEQ_EVENT_NOTEON else SNDRV_SEQ_EVENT_NOTEOFF }
  let seq_event := { seq_event with flags := SNDRV_SEQ_EVENT_LENGTH_FIXED }
  let seq_event := { seq_event with queue := SNDRV_SEQ_QUEUE_DIRECT }
  let seq_event := { seq_event with dest := seq_addr }
  let seq_event := { seq_event with data := { seq_event.data with channel := 0 } }
  let seq_event := { seq_event with data := { seq_event.data with note := event.key } }
  { seq_event with data := { seq_event.data with velocity := event.velocity } }

/-- The translation loop `for (int i = 0; i < result; i++)` of `main_loop`:
the array `seq_events[result]` it fills from the array `midi_events`. -/
def build_seq_events (seq_addr : snd_seq_addr) (midi_events : Nat → midi_event_t)
    (result : Nat) : List snd_seq_event :=
  (List.range result).map (fun i => seq_event_of seq_addr (midi_events i))

/-- One entry of the array filled by `epoll_wait`. -/
structure epoll_event where
  events : Nat
  fd : Int
deriving DecidableEq, Repr

/-- What the operating system answers while one ready entry is handled: the
results of `accept4`, `epoll_ctl`, `read` (with the contents of the buffer
`midi_events` after the call) and `write`.  Only the calls made on the branch
taken are consulted. -/
structure syscall_results where
  accept4 : Int
  epoll_ctl : Int
  read : Int
  buffer : List Nat
  write : Int
deriving DecidableEq, Repr

/-- The descriptors the server process holds, made explicit: the open sockets
(listener and client streams), the interest list of the epoll instance, and the
arrays handed to `write(common->seq_fd, ...)` so far. -/
structure server_state where
  open_fds : List Int
  interest : List epoll_event
  seq_writes : List (List snd_seq_event)
deriving DecidableEq, Repr

/-- Effect of `close(fd)`: the descriptor leaves the open set, and the kernel
drops it from the interest list of the epoll instance. -/
def close_fd (fd : Int) (s : server_state) : server_state :=
  { s with open_fds := s.open_fds.filter (fun d => d ≠ fd)
           interest := s.interest.filter (fun e => e.fd ≠ fd) }

/-- Body of `for (int i = 0; i < N; i++)` in `main_loop` (lines 91-145) for
one ready entry `event`. -/
def handle_ready (common : common_t) (event : epoll_event) (os : syscall_results)
    (s : server_state) : outcome action_code_t server_state :=
  let epoll_events := event.events
  let fd := event.fd
  if fd = common.server_fd then
    let client_fd := os.accept4
    if client_fd < 0 then
      .returned .ACCEPT_CLIENT_ACTION_CODE s
    else
      let s := { s with open_fds := client_fd :: s.open_fds }
      let event : epoll_event := { events := EPOLLIN ||| EPOLLET, fd := client_fd }
      let result := os.epoll_ctl
      if result < 0 then
        .returned .EPOLL_ADD_CLIENT_SOCKET_ACTION_CODE s
      else
        .running { s with interest := event :: s.interest }
  else if epoll_events &&& EPOLLIN ≠ 0 then
    let result := os.read
    if result ≤ 0 then
      .running s
    else
      let result := result / (sizeof_midi_event_t : Int)
      let seq_events := build_seq_events common.seq_addr (midi_event_at os.buffer) result.toNat
      let seq_events_size := result * (sizeof_snd_seq_event : Int)
      let s := { s with seq_writes := s.seq_writes ++ [seq_events] }
      let result := os.write
      if result ≠ seq_events_size then
        .returned .WRITE_SEQ_EVENTS_ACTION_CODE s
      else
        .running s
  else
    .running (close_fd fd s)

/-- The `for` loop over the ready entries of one wake-up. -/
def handle_all (common : common_t) :
    List (epoll_event × syscall_results) → server_state → outcome action_code_t server_state
  | [], s => .running s
  | (event, os) :: rest, s => (handle_ready common event os s).andThen (handle_all common rest)

/-- One iteration of `while (1)` in `main_loop`: `epoll_wait` returned `N` and
filled `events`; a negative `N` returns, otherwise the first `N` entries are
handled in order. -/
def wake_up (common : common_t) (N : Int) (events : List (epoll_event × syscall_results))
    (s : server_state) : outcome action_code_t server_state :=
  if N < 0 then
    .returned .EPOLL_WAIT_ACTION_CODE s
  else
    handle_all common (events.take N.toNat) s

/-- The loop `while (1)` of `main_loop`, run on a finite sequence of wake-ups. -/
def main_loop (common : common_t) :
    List (Int × List (epoll_event × syscall_results)) → server_state →
      outcome action_code_t server_state
  | [], s => .running s
  | (N, events) :: rest, s => (wake_up common N events s).andThen (main_loop common rest)

/-- The function `get_key` of `gpio_midi.c`: `key` is a `uint8_t`, so `key++` and
`key--` wrap modulo 256, and the returned `int` expression is converted to
`uint8_t`. -/
def get_key (arg : List Char) : Nat :=
  let key : Nat := 0
  let key : Nat :=
    if c_string_at arg 0 = 'C' then 0
    else if c_string_at arg 0 = 'D' then 2
    else if c_string_at arg 0 = 'E' then 4
    else if c_string_at arg 0 = 'F' then 5
    else if c_string_at arg 0 = 'G' then 7
    else if c_string_at arg 0 = 'A' then 9
    else if c_string_at arg 0 = 'B' then 11
    else key
  let next_c := c_string_at arg 2
  let (key, next_c) : Nat × Char :=
    if c_string_at arg 1 = '#' then ((key + 1) % 256, next_c)
    else if c_string_at arg 1 = 'b' then ((key + 255) % 256, next_c)
    else (key, c_string_at arg 1)
  (((key : Int) + ((next_c.toNat : Int) - ('0'.toNat : Int)) * 12) % 256).toNat

end Server

/-! ## gpio_midi_rpi.c: the client -/

namespace Client

/-- The `action_code_t` tags of the client that `main_loop` can name. -/
inductive action_code_t where
  | SUCCESS_ACTION_CODE
  | CREATE_SERVER_SOCKET_ACTION_CODE
  | IOCTL_GPIO_SET_ACTION_CODE
  | IOCTL_GPIO_GET_ACTION_CODE
  | SEND_EVENTS_ACTION_CODE
  | CONNECT_SERVER_ACTION_CODE
deriving DecidableEq, Repr

/-- The designated initialisers of `static uint8_t key_hash[5][8]`, in source
order: `((i, j), k)` stands for `[i][j] = k`. -/
def key_hash_init : List ((Nat × Nat) × Nat) :=
  [ ((2, 7), 0),
    ((2, 2), 1),
    ((2, 6), 2),
    ((2, 0), 3),
    ((2, 4), 4),
    ((2, 1), 5),
    ((2, 3), 6),
    ((2, 5), 7),
    ((1, 7), 8),
    ((1, 2), 9),
    ((1, 6), 10),
    ((1, 0), 11),
    ((1, 4), 12),
    ((1, 1), 13),
    ((1, 3), 14),
    ((1, 5), 15),
    ((3, 7), 16),
    ((3, 2), 17),
    ((3, 6), 18),
    ((3, 0), 19),
    ((3, 4), 20),
    ((3, 1), 21),
    ((3, 3), 22),
    ((3, 5), 23),
    ((4, 7), 24),
    ((4, 2), 25),
    ((4, 6), 26),
    ((4, 0), 27),
    ((4, 4), 28),
    ((4, 1), 29),
    ((4, 3), 30),
    ((4, 5), 31),
    ((0, 7), 32),
    ((0, 2), 33),
    ((0, 6), 34),
    ((0, 0), 35),
    ((0, 4), 36) ]

/-- The table `key_hash[i][j]`: the value of the designated initialiser for the
cell, and 0 for a cell that has none (static storage is zero-initialised). -/
def key_hash (i j : Nat) : Nat :=
  (key_hash_init.lookup (i, j)).getD 0

/-- The array `uint8_t keys[37] = { [0 ... 36] = 0 }` at the start of `main_loop`. -/
def keys_init : List Nat := List.replicate 37 0

/-- The locals a scan pass works on: the cache `keys` and the filled prefix
`midi_events[0 .. midi_event_count)` of the pending batch, so that
`midi_event_count` is the length of `midi_events`. -/
structure scan_state where
  keys : List Nat
  midi_events : List midi_event_t
deriving DecidableEq, Repr

/-- Body of `for (uint8_t j = 0; j < 8; j++)` (lines 166-176) for the cell
`(i, j)` whose input reads `value`.  The store `midi_events[midi_event_count++]`
is defined only while `midi_event_count < CONFIG_MAX_MIDI_EVENTS`, the size of
the array; `none` stands for a store past its end, which has no defined
behaviour in C. -/
def scan_cell (i j value : Nat) (s : scan_state) : Option scan_state :=
  let key := key_hash i j
  if s.keys.getD key 0 ≠ value then
    let keys := s.keys.set key value
    if s.midi_events.length < CONFIG_MAX_MIDI_EVENTS then
      some { keys := keys
             midi_events := s.midi_events ++
               [{ key := (key + 3 * 12) % 256, velocity := (value * 100) % 256 }] }
    else
      none
  else
    some s

/-- The loop `for (uint8_t j = 0; j < 8; j++)` over the inputs still to visit. -/
def scan_inputs (i : Nat) (values : Nat → Nat) : List Nat → scan_state → Option scan_state
  | [], s => some s
  | j :: rest, s => (scan_cell i j (values j) s).bind (scan_inputs i values rest)

/-- What the GPIO device answers for one output line: the results of the
`GPIOHANDLE_SET_LINE_VALUES_IOCTL` and `GPIOHANDLE_GET_LINE_VALUES_IOCTL`
calls and `data.values[j]` after the latter. -/
structure gpio_answers where
  set_result : Int
  get_result : Int
  values : Nat → Nat

/-- How a scan pass ends: all five lines were visited, or an `ioctl` failed and
`main_loop` returns `code`, or a store went past the end of `midi_events`. -/
inductive pass_outcome where
  | completed (s : scan_state)
  | failed (code : action_code_t) (s : scan_state)
  | out_of_bounds
deriving DecidableEq, Repr

/-- The loop `for (uint8_t i = 0; i < 5; i++)` (lines 149-178) over the output
lines still to drive. -/
def scan_lines (gpio : Nat → gpio_answers) : List Nat → scan_state → pass_outcome
  | [], s => .completed s
  | i :: rest, s =>
    if (gpio i).set_result < 0 then
      .failed .IOCTL_GPIO_SET_ACTION_CODE s
    else if (gpio i).get_result < 0 then
      .failed .IOCTL_GPIO_GET_ACTION_CODE s
    else
      match scan_inputs i (gpio i).values (List.range 8) s with
      | none => .out_of_bounds
      | some s => scan_lines gpio rest s

/-- A device on which both calls succeed for every line and line `i` reads
`reading i j` on input `j`. -/
def gpio_reading (reading : Nat → Nat → Nat) (i : Nat) : gpio_answers :=
  { set_result := 0, get_result := 0, values := reading i }

/-- One complete scan pass (lines 146-178) from the cache `keys` over a device
that answers every call and reads `reading`: `midi_event_count = 0`, then the
five output lines in order. -/
def scan_pass (keys : List Nat) (reading : Nat → Nat → Nat) : pass_outcome :=
  scan_lines (gpio_reading reading) (List.range 5) { keys := keys, midi_events := [] }

/-- The cells of the matrix in the order a pass visits them: output lines
0..4, and for each line inputs 0..7. -/
def scan_order : List (Nat × Nat) :=
  (List.range 5).flatMap (fun i => (List.range 8).map (fun j => (i, j)))

/-- The two nested loops of a pass over a device that answers every call,
flattened to the sequence of cells still to visit. -/
def scan_cells (reading : Nat → Nat → Nat) : List (Nat × Nat) → scan_state → Option scan_state
  | [], s => some s
  | c :: rest, s => (scan_cell c.1 c.2 (reading c.1 c.2) s).bind (scan_cells reading rest)

/-- The values at which a cache entry holding `v` changes when it is compared,
in order, with the readings `values`. -/
def changes (v : Nat) : List Nat → List Nat
  | [] => []
  | x :: xs => if v ≠ x then x :: changes x xs else changes v xs

/-- The value a cache entry holding `v` ends with after it was compared, in
order, with the readings `values`. -/
def final_value (v : Nat) : List Nat → Nat
  | [] => v
  | x :: xs => final_value x xs

/-- Outcome of a pass from the result of the flattened loops. -/
def pass_outcome.of_option : Option scan_state → pass_outcome
  | none => .out_of_bounds
  | some s => .completed s

/-- A reading in which the switch of logical key 0, cell (2,7), is closed and
every other cell reads 0. -/
def reading_key0_held (i j : Nat) : Nat :=
  if i = 2 ∧ j = 7 then 1 else 0

/-- A reading in which every cell reads 0. -/
def reading_all_released (_i _j : Nat) : Nat := 0

/-- A reading in which seventeen switches are closed at once: the sixteen of
output lines 1 and 2 and the one of cell (3,0), logical key 19. -/
def reading_seventeen_held (i j : Nat) : Nat :=
  if i = 1 ∨ i = 2 ∨ (i = 3 ∧ j = 0) then 1 else 0

/-- A reading in which the switch of logical key 1, cell (2,2), is closed and
every other cell reads 0. -/
def reading_key1_held (i j : Nat) : Nat :=
  if i = 2 ∧ j = 2 then 1 else 0

/-- The cache after logical key 1 was seen pressed. -/
def keys_key1_held : List Nat := keys_init.set 1 1

/-- The cache after logical key 0 was seen pressed. -/
def keys_key0_held : List Nat := keys_init.set 0 1

/-- The cache after logical keys 0 and 1 were seen pressed. -/
def keys_key0_key1_held : List Nat := (keys_init.set 0 1).set 1 1

/-- Conversion of a value to the 32-bit `int` that holds `gpio_timeout`. -/
def to_int32 (x : Int) : Int :=
  (x + 2 ^ 31) % 2 ^ 32 - 2 ^ 31

/-- The variables that live across scan passes, with the effects of the loop
made explicit: the arrays handed to `write(server_fd, ...)` and the arguments
of `usleep`, oldest first. -/
structure client_state where
  keys : List Nat
  gpio_timeout : Int
  sent : List (List midi_event_t)
  slept : List Int
deriving DecidableEq, Repr

/-- The state when the scan loop is first entered: `gpio_timeout = 1`, all
keys released, nothing sent, nothing slept. -/
def client_state.init : client_state :=
  { keys := keys_init, gpio_timeout := 1, sent := [], slept := [] }

/-- Lines 180-195 of `main_loop`: what follows a completed pass whose batch is
`midi_events`, when `write` (if called) returns `write_result`. -/
def after_pass (midi_events : List midi_event_t) (write_result : Int) (s : client_state) :
    outcome action_code_t client_state :=
  let midi_event_count := midi_events.length
  if midi_event_count > 0 then
    let events_size : Int := midi_event_count * sizeof_midi_event_t
    let s := { s with sent := s.sent ++ [midi_events] }
    let result := write_result
    if result ≠ events_size then
      .returned .SEND_EVENTS_ACTION_CODE s
    else
      .running { s with gpio_timeout := 1 }
  else
    let s := { s with slept := s.slept ++ [s.gpio_timeout] }
    if s.gpio_timeout < (CONFIG_MAX_GPIO_TIMEOUT : Int) then
      .running { s with gpio_timeout := to_int32 (s.gpio_timeout * 2) }
    else
      .running s

/-- What the outside world answers during one iteration of the scan loop. -/
structure iteration_input where
  gpio : Nat → gpio_answers
  write_result : Int

/-- One iteration of the inner `while (1)` of `main_loop` (lines 146-195);
`none` when the pass stores past the end of `midi_events`. -/
def scan_iteration (inp : iteration_input) (s : client_state) :
    Option (outcome action_code_t client_state) :=
  match scan_lines inp.gpio (List.range 5) { keys := s.keys, midi_events := [] } with
  | .out_of_bounds => none
  | .failed code sc => some (.returned code { s with keys := sc.keys })
  | .completed sc => some (after_pass sc.midi_events inp.write_result { s with keys := sc.keys })

/-- The inner `while (1)` of `main_loop`, run on a finite sequence of iterations. -/
def scan_loop : List iteration_input → client_state → Option (outcome action_code_t client_state)
  | [], s => some (.running s)
  | inp :: rest, s =>
    match scan_iteration inp s with
    | none => none
    | some (.returned code s) => some (.returned code s)
    | some (.running s) => scan_loop rest s

/-- Whether the pass of an iteration entered with the cache `keys` is idle: it
visits all five lines and leaves `midi_event_count` at 0. -/
def pass_is_idle (inp : iteration_input) (keys : List Nat) : Bool :=
  match scan_lines inp.gpio (List.range 5) { keys := keys, midi_events := [] } with
  | .completed sc => sc.midi_events.isEmpty
  | _ => false

/-- The outer `while (1)` of `main_loop`: the successive `connect` calls
returned `connects` (a failed one sleeps and retries), and once connected the
scan loop runs on `iterations`. -/
def connect_loop : List Int → List iteration_input → client_state →
    Option (outcome action_code_t client_state)
  | [], _, s => some (.running s)
  | result :: connects, iterations, s =>
    if result < 0 then
      connect_loop connects iterations s
    else
      scan_loop iterations s

/-- The function `main_loop` of the client, where `socket` returned
`socket_result`. -/
def main_loop (socket_result : Int) (connects : List Int) (iterations : List iteration_input) :
    Option (outcome action_code_t client_state) :=
  if socket_result < 0 then
    some (.returned .CREATE_SERVER_SOCKET_ACTION_CODE client_state.init)
  else
    connect_loop connects iterations client_state.init

/-- The function `get_key` of `gpio_midi_rpi.c`: `key` is a `uint8_t`, so `key++` and
`key--` wrap modulo 256, and the returned `int` expression is converted to
`uint8_t`. -/
def get_key (arg : List Char) : Nat :=
  let key : Nat := 0
  let key : Nat :=
    if c_string_at arg 0 = 'C' then 0
    else if c_string_at arg 0 = 'D' then 2
    else if c_string_at arg 0 = 'E' then 4
    else if c_string_at arg 0 = 'F' then 5
    else if c_string_at arg 0 = 'G' then 7
    else if c_string_at arg 0 = 'A' then 9
    else if c_string_at arg 0 = 'B' then 11
    else key
  let next_c := c_string_at arg 2
  let (key, next_c) : Nat × Char :=
    if c_string_at arg 1 = '#' then ((key + 1) % 256, next_c)
    else if c_string_at arg 1 = 'b' then ((key + 255) % 256, next_c)
    else (key, c_string_at arg 1)
  (((key : Int) + ((next_c.toNat : Int) - ('0'.toNat : Int)) * 12) % 256).toNat

/-- A device on which output line 0 is driven and read, with input 0 closed
(logical key 35), and driving output line 1 fails. -/
def gpio_set_fails_on_line_1 (i : Nat) : gpio_answers :=
  if i = 1 then { set_result := -1, get_result := 0, values := fun _ => 0 }
  else { set_result := 0, get_result := 0, values := fun j => if j = 0 then 1 else 0 }

/-- A device on which output line 0 is driven and read, with input 0 closed
(logical key 35), and reading the inputs for output line 1 fails. -/
def gpio_get_fails_on_line_1 (i : Nat) : gpio_answers :=
  if i = 1 then { set_result := 0, get_result := -1, values := fun _ => 0 }
  else { set_result := 0, get_result := 0, values := fun j => if j = 0 then 1 else 0 }

/-- A reading in which the switches of all 37 logical keys are closed: every
cell with an initialiser in `key_hash` reads 1, the three without read 0. -/
def reading_all_keys_held (i j : Nat) : Nat :=
  if (key_hash_init.lookup (i, j)).isSome then 1 else 0

end Client

/-! ## Pitch names, as the specification words them -/

/-- The semitone of a note letter within its octave, in the words of the
claim: C=0, D=2, E=4, F=5, G=7, A=9, B=11. -/
def semitone (letter : Char) : Int :=
  if letter = 'C' then 0
  else if letter = 'D' then 2
  else if letter = 'E' then 4
  else if letter = 'F' then 5
  else if letter = 'G' then 7
  else if letter = 'A' then 9
  else if letter = 'B' then 11
  else 0

/-- The offset of an accidental, in the words of the claim: +1 for a sharp,
-1 for a flat, 0 for none. -/
def accidental_offset (accidental : List Char) : Int :=
  if accidental = ['#'] then 1
  else if accidental = ['b'] then -1
  else 0

/-- The character of the decimal digit `d`. -/
def digit_char (d : Nat) : Char :=
  Char.ofNat ('0'.toNat + d)

/-- The key a pitch name stands for, in the words of the claim:
`(semitone + accidental + 12 * octave) mod 256`. -/
def pitch_key (letter : Char) (accidental : List Char) (d : Nat) : Nat :=
  ((semitone letter + accidental_offset accidental + 12 * (d : Int)) % 256).toNat

end GpioMidi

/-! # Theorems -/

namespace GpioMidi

/-! ## Wire format -/

theorem wire_bytes_length (events : List midi_event_t) :
    (wire_bytes events).length = sizeof_midi_event_t * events.length := by
  induction events with
  | nil => rfl
  | cons e es ih => simp only [wire_bytes, List.length_cons, ih, sizeof_midi_event_t]; omega

theorem decoded_events_length (buffer : List Nat) (nbytes : Nat) :
    (decoded_events buffer nbytes).length = nbytes / 2 := by
  simp [decoded_events, sizeof_midi_event_t]

/-- A record that lies within the bytes received is read from those bytes alone. -/
theorem midi_event_at_read_into (stale data : List Nat) (i : Nat)
    (h : sizeof_midi_event_t * i + 1 < data.length) :
    midi_event_at (read_into stale data) i =
      { key := data.getD (2 * i) 0, velocity := data.getD (2 * i + 1) 0 } := by
  have h0 : sizeof_midi_event_t * i < data.length := by omega
  simp only [midi_event_at, read_into]
  rw [List.getD_append _ _ _ _ h0, List.getD_append _ _ _ _ h]
  rfl

theorem decoded_events_getElem? (buffer : List Nat) (nbytes i : Nat) (h : i < nbytes / 2) :
    (decoded_events buffer nbytes)[i]? = some (midi_event_at buffer i) := by
  simp [decoded_events, sizeof_midi_event_t, List.getElem?_range h]

theorem midi_event_at_cons_cons (k v : Nat) (rest : List Nat) (i : Nat) :
    midi_event_at (k :: v :: rest) (i + 1) = midi_event_at rest i := by
  simp [midi_event_at, sizeof_midi_event_t, Nat.mul_add]

theorem decoded_events_wire_bytes (events : List midi_event_t) :
    decoded_events (wire_bytes events) (wire_bytes events).length = events := by
  induction events with
  | nil => rfl
  | cons e es ih =>
    have hlen : (wire_bytes (e :: es)).length / sizeof_midi_event_t
        = (wire_bytes es).length / sizeof_midi_event_t + 1 := by
      simp only [wire_bytes, List.length_cons, sizeof_midi_event_t]; omega
    unfold decoded_events at ih ⊢
    rw [hlen, List.range_succ_eq_map, List.map_cons, List.map_map]
    have hfun : (midi_event_at (wire_bytes (e :: es)) ∘ Nat.succ)
        = midi_event_at (wire_bytes es) := by
      funext i
      exact midi_event_at_cons_cons e.key e.velocity (wire_bytes es) i
    rw [hfun, ih]
    simp [midi_event_at, wire_bytes, sizeof_midi_event_t]

/-- Decoding after a read looks at the received bytes only. -/
theorem decoded_events_read_into (stale data : List Nat) :
    decoded_events (read_into stale data) data.length = decoded_events data data.length := by
  unfold decoded_events
  apply List.map_congr_left
  intro i hi
  have hi2 : i < data.length / sizeof_midi_event_t := List.mem_range.mp hi
  have hlt : sizeof_midi_event_t * i + 1 < data.length := by
    simp only [sizeof_midi_event_t] at hi2 ⊢; omega
  rw [midi_event_at_read_into stale data i hlt]
  have h0 : sizeof_midi_event_t * i < data.length := by omega
  simp only [midi_event_at, sizeof_midi_event_t]

namespace Server

theorem build_seq_events_length (seq_addr : snd_seq_addr) (midi_events : Nat → midi_event_t)
    (n : Nat) : (build_seq_events seq_addr midi_events n).length = n := by
  simp [build_seq_events]

theorem build_seq_events_getElem? (seq_addr : snd_seq_addr) (midi_events : Nat → midi_event_t)
    (n i : Nat) (h : i < n) :
    (build_seq_events seq_addr midi_events n)[i]? = some (seq_event_of seq_addr (midi_events i)) := by
  simp [build_seq_events, List.getElem?_range h]

/-- The branch of `handle_ready` taken for a client stream whose read succeeded. -/
theorem handle_ready_read (common : common_t) (event : epoll_event) (os : syscall_results)
    (s : server_state) (hfd : event.fd ≠ common.server_fd) (hin : event.events &&& EPOLLIN ≠ 0)
    (hread : 0 < os.read) :
    handle_ready common event os s =
      (if os.write ≠ os.read / 2 * 28 then
        outcome.returned action_code_t.WRITE_SEQ_EVENTS_ACTION_CODE
      else outcome.running)
        { s with seq_writes := s.seq_writes ++
            [build_seq_events common.seq_addr (midi_event_at os.buffer) (os.read / 2).toNat] } := by
  have hr : ¬ os.read ≤ 0 := by omega
  simp only [handle_ready, if_neg hfd, if_pos hin, if_neg hr, sizeof_midi_event_t,
    sizeof_snd_seq_event, Nat.cast_ofNat]
  by_cases hw : os.write = os.read / 2 * 28
  · simp [hw]
  · simp [hw]

theorem build_seq_events_eq_map (seq_addr : snd_seq_addr) (buffer : List Nat) (nbytes : Nat) :
    build_seq_events seq_addr (midi_event_at buffer) (nbytes / 2) =
      (decoded_events buffer nbytes).map (seq_event_of seq_addr) := by
  simp [build_seq_events, decoded_events, sizeof_midi_event_t, List.map_map, Function.comp_def]

theorem toNat_half_cast (n : Nat) : ((n : Int) / 2).toNat = n / 2 := by
  have h : ((n : Int) / 2) = ((n / 2 : Nat) : Int) := by norm_cast
  rw [h, Int.toNat_ofNat]

/-- The array a successful client read makes `handle_ready` hand to the sequencer. -/
theorem handle_ready_read_seq_writes (common : common_t) (event : epoll_event)
    (os : syscall_results) (s : server_state)
    (hfd : event.fd ≠ common.server_fd) (hin : event.events &&& EPOLLIN ≠ 0)
    (hread : 0 < os.read) :
    (handle_ready common event os s).state.seq_writes =
      s.seq_writes ++
        [build_seq_events common.seq_addr (midi_event_at os.buffer) (os.read / 2).toNat] := by
  rw [handle_ready_read common event os s hfd hin hread]
  by_cases hw : os.write = os.read / 2 * 28
  · simp [hw, outcome.state]
  · simp [hw, outcome.state]

/-- C1. Sequencer translation in the server `main_loop`: when a client stream
is ready and its read returns between 1 and 32 bytes, i.e. a batch of
`n = result / 2` decoded events with `0 ≤ n ≤ 16`, the array handed to the
sequencer write holds exactly `n` commands, and command `i` is built from event
`i`: type NOTEON when the velocity is positive and NOTEOFF when it is 0,
fixed-length flag, direct queue, destination `common->seq_addr`, channel 0,
note = key, velocity = velocity, and every other field zero. -/
theorem main_loop_translates_each_event (common : common_t) (event : epoll_event)
    (os : syscall_results) (s : server_state)
    (hfd : event.fd ≠ common.server_fd) (hin : event.events &&& EPOLLIN ≠ 0)
    (hread : 0 < os.read) (hmax : os.read ≤ 32) :
    (handle_ready common event os s).state.seq_writes =
      s.seq_writes ++
        [build_seq_events common.seq_addr (midi_event_at os.buffer) (os.read / 2).toNat] ∧
    (build_seq_events common.seq_addr (midi_event_at os.buffer) (os.read / 2).toNat).length
      = (os.read / 2).toNat ∧
    (os.read / 2).toNat ≤ CONFIG_MAX_MIDI_EVENTS ∧
    ∀ i, i < (os.read / 2).toNat →
      (build_seq_events common.seq_addr (midi_event_at os.buffer) (os.read / 2).toNat)[i]? =
        some
          { type := if (midi_event_at os.buffer i).velocity > 0 then SNDRV_SEQ_EVENT_NOTEON
                    else SNDRV_SEQ_EVENT_NOTEOFF
            flags := SNDRV_SEQ_EVENT_LENGTH_FIXED
            tag := 0
            queue := SNDRV_SEQ_QUEUE_DIRECT
            time := { tv_sec := 0, tv_nsec := 0 }
            source := { client := 0, port := 0 }
            dest := common.seq_addr
            data := { channel := 0
                      note := (midi_event_at os.buffer i).key
                      velocity := (midi_event_at os.buffer i).velocity
                      off_velocity := 0
                      duration := 0 } } := by
  refine ⟨handle_ready_read_seq_writes common event os s hfd hin hread,
    build_seq_events_length _ _ _, ?_, ?_⟩
  · simp only [CONFIG_MAX_MIDI_EVENTS]; omega
  · intro i hi
    rw [build_seq_events_getElem? _ _ _ _ hi]
    rfl

theorem main_loop_translates_each_event_witness :
    (handle_ready ⟨3, 4, 5, ⟨14, 0⟩⟩ ⟨EPOLLIN, 7⟩ ⟨0, 0, 4, [60, 100, 62, 0], 56⟩
        ⟨[4, 7], [], []⟩).state.seq_writes =
      [[{ type := SNDRV_SEQ_EVENT_NOTEON, flags := 0, tag := 0, queue := 253
          time := ⟨0, 0⟩, source := ⟨0, 0⟩, dest := ⟨14, 0⟩, data := ⟨0, 60, 100, 0, 0⟩ },
        { type := SNDRV_SEQ_EVENT_NOTEOFF, flags := 0, tag := 0, queue := 253
          time := ⟨0, 0⟩, source := ⟨0, 0⟩, dest := ⟨14, 0⟩, data := ⟨0, 62, 0, 0, 0⟩ }]] :=
  (main_loop_translates_each_event ⟨3, 4, 5, ⟨14, 0⟩⟩ ⟨EPOLLIN, 7⟩
    ⟨0, 0, 4, [60, 100, 62, 0], 56⟩ ⟨[4, 7], [], []⟩
    (by decide) (by decide) (by decide) (by decide)).1

/-- C2. Partial-record handling in the server `main_loop`: when a client read
returns the `n` bytes `data`, `1 ≤ n ≤ 32`, into a buffer that held `stale`,
the commands written are those of exactly `n / 2` decoded events, event `i`
being `{key = data[2i], velocity = data[2i+1]}`; an odd last byte belongs to no
event, and the events decoded from the next read into the same buffer are those
of the next read's own bytes. -/
theorem read_decodes_whole_records_only (common : common_t) (event : epoll_event)
    (os : syscall_results) (s : server_state) (stale data : List Nat)
    (hfd : event.fd ≠ common.server_fd) (hin : event.events &&& EPOLLIN ≠ 0)
    (hread : os.read = data.length) (hbuf : os.buffer = read_into stale data)
    (h1 : 1 ≤ data.length) (h32 : data.length ≤ 32) :
    (handle_ready common event os s).state.seq_writes =
      s.seq_writes ++
        [(decoded_events (read_into stale data) data.length).map (seq_event_of common.seq_addr)] ∧
    (decoded_events (read_into stale data) data.length).length = data.length / 2 ∧
    (∀ i, i < data.length / 2 →
      (decoded_events (read_into stale data) data.length)[i]? =
        some { key := data.getD (2 * i) 0, velocity := data.getD (2 * i + 1) 0 }) ∧
    (∀ next : List Nat, 1 ≤ next.length → next.length ≤ 32 →
      decoded_events (read_into (read_into stale data) next) next.length =
        decoded_events next next.length) := by
  refine ⟨?_, decoded_events_length _ _, ?_, ?_⟩
  · have hpos : 0 < os.read := by omega
    rw [handle_ready_read_seq_writes common event os s hfd hin hpos, hread,
      toNat_half_cast, hbuf, build_seq_events_eq_map]
  · intro i hi
    rw [decoded_events_getElem? _ _ _ hi]
    have hlt : sizeof_midi_event_t * i + 1 < data.length := by
      simp only [sizeof_midi_event_t]; omega
    rw [midi_event_at_read_into stale data i hlt]
  · intro next _ _
    exact decoded_events_read_into _ next

theorem read_decodes_whole_records_only_witness :
    decoded_events (read_into [9, 9, 9, 9, 9, 9, 9, 9] [60, 100, 62, 0, 64]) 5 =
        [⟨60, 100⟩, ⟨62, 0⟩] ∧
    decoded_events (read_into (read_into [9, 9, 9, 9, 9, 9, 9, 9] [60, 100, 62, 0, 64]) [65, 90]) 2 =
        [⟨65, 90⟩] :=
  have h := read_decodes_whole_records_only ⟨3, 4, 5, ⟨14, 0⟩⟩ ⟨EPOLLIN, 7⟩
    ⟨0, 0, 5, read_into [9, 9, 9, 9, 9, 9, 9, 9] [60, 100, 62, 0, 64], 56⟩ ⟨[4, 7], [], []⟩
    [9, 9, 9, 9, 9, 9, 9, 9] [60, 100, 62, 0, 64]
    (by decide) (by decide) rfl rfl (by decide) (by decide)
  ⟨by decide, (h.2.2.2 [65, 90] (by decide) (by decide)).trans (by decide)⟩

end Server

/-- C3. Wire-format round trip: for every list of at most 16 events with key
and velocity in 0..127, the bytes the client writes (key byte, then velocity
byte, per event) decode on the server, after one read of all of them into a
buffer that held `stale`, to the same list in the same order; in particular a
single record `{key, velocity}` decodes from its 2-byte buffer to the identical
pair, 0 and 127 included. -/
theorem wire_round_trip (stale : List Nat) (events : List midi_event_t)
    (hlen : events.length ≤ CONFIG_MAX_MIDI_EVENTS)
    (hrange : ∀ e ∈ events, e.key ≤ 127 ∧ e.velocity ≤ 127) :
    decoded_events (read_into stale (wire_bytes events)) (wire_bytes events).length = events ∧
    (∀ key velocity : Nat, key ≤ 127 → velocity ≤ 127 →
      wire_bytes [{ key := key, velocity := velocity }] = [key, velocity] ∧
      decoded_events (read_into stale [key, velocity]) 2 =
        [{ key := key, velocity := velocity }]) := by
  refine ⟨?_, ?_⟩
  · rw [decoded_events_read_into, decoded_events_wire_bytes]
  · intro key velocity _ _
    refine ⟨rfl, ?_⟩
    have h := decoded_events_read_into stale [key, velocity]
    have h2 := decoded_events_wire_bytes [{ key := key, velocity := velocity }]
    simp only [wire_bytes, List.length_cons, List.length_nil] at h h2
    rw [h, h2]

theorem wire_round_trip_witness :
    decoded_events (read_into [1, 2, 3, 4, 5, 6, 7] (wire_bytes [⟨0, 127⟩, ⟨127, 0⟩, ⟨36, 100⟩]))
        (wire_bytes [⟨0, 127⟩, ⟨127, 0⟩, ⟨36, 100⟩]).length =
      [⟨0, 127⟩, ⟨127, 0⟩, ⟨36, 100⟩] :=
  (wire_round_trip [1, 2, 3, 4, 5, 6, 7] [⟨0, 127⟩, ⟨127, 0⟩, ⟨36, 100⟩]
    (by decide) (by decide)).1

/-! ## The scan pass of the client -/

namespace Client

theorem lookup_getD_le (bound : Nat) (a : Nat × Nat) :
    ∀ l : List ((Nat × Nat) × Nat), (∀ e ∈ l, e.2 ≤ bound) → (l.lookup a).getD 0 ≤ bound
  | [], _ => by simp [List.lookup]
  | (b, v) :: rest, h => by
    by_cases hab : a = b
    · subst hab
      simpa [List.lookup] using h (a, v) (List.mem_cons_self _ _)
    · have hbeq : (a == b) = false := by simpa using hab
      simp only [List.lookup, hbeq]
      exact lookup_getD_le bound a rest (fun e he => h e (List.mem_cons_of_mem _ he))

/-- Every entry of the table is an index into `keys[37]`. -/
theorem key_hash_le (i j : Nat) : key_hash i j ≤ 36 :=
  lookup_getD_le 36 (i, j) key_hash_init (by decide)

theorem getD_set_self (keys : List Nat) (k v : Nat) (h : k < keys.length) :
    (keys.set k v).getD k 0 = v := by
  simp [List.getD_eq_getElem?_getD, List.getElem?_set_self h]

theorem getD_set_ne (keys : List Nat) (k k' v : Nat) (h : k' ≠ k) :
    (keys.set k' v).getD k 0 = keys.getD k 0 := by
  simp [List.getD_eq_getElem?_getD, List.getElem?_set_ne h]

/-- What visiting one cell does to the cache entry of key `k` and to the events
of the batch that carry the note of key `k`. -/
theorem scan_cell_key (i j value k : Nat) (hk : k ≤ 36) (s s1 : scan_state)
    (hlen : s.keys.length = 37) (h : scan_cell i j value s = some s1) :
    s1.keys.length = 37 ∧
    (key_hash i j = k →
      s1.keys.getD k 0 = value ∧
      s1.midi_events.filter (fun e => e.key = k + 36) =
        s.midi_events.filter (fun e => e.key = k + 36) ++
          (if s.keys.getD k 0 ≠ value then [{ key := k + 36, velocity := value * 100 % 256 }]
           else [])) ∧
    (key_hash i j ≠ k →
      s1.keys.getD k 0 = s.keys.getD k 0 ∧
      s1.midi_events.filter (fun e => e.key = k + 36) =
        s.midi_events.filter (fun e => e.key = k + 36)) := by
  have hle := key_hash_le i j
  unfold scan_cell at h
  by_cases hne : s.keys.getD (key_hash i j) 0 ≠ value
  · by_cases hroom : s.midi_events.length < CONFIG_MAX_MIDI_EVENTS
    · simp only [hne, hroom, if_true, not_false_eq_true, ne_eq, Option.some.injEq] at h
      subst h
      refine ⟨by simpa using hlen, ?_, ?_⟩
      · intro hkey
        subst hkey
        have hmod : (key_hash i j + 3 * 12) % 256 = key_hash i j + 36 := by omega
        refine ⟨getD_set_self _ _ _ (by omega), ?_⟩
        rw [if_pos hne]
        simp [List.filter_append, hmod]
      · intro hkey
        have hmod : (key_hash i j + 3 * 12) % 256 ≠ k + 36 := by omega
        refine ⟨getD_set_ne _ _ _ _ hkey, ?_⟩
        simp [List.filter_append, hmod]
    · simp only [hne, hroom, if_true, if_false, not_false_eq_true, ne_eq] at h
      cases h
  · simp only [hne, if_false, Option.some.injEq] at h
    subst h
    refine ⟨hlen, ?_, ?_⟩
    · intro hkey
      subst hkey
      have heq : s.keys.getD (key_hash i j) 0 = value := by
        by_contra hcon; exact hne hcon
      rw [if_neg (not_not.mpr heq)]
      exact ⟨heq, by simp⟩
    · intro _
      exact ⟨rfl, rfl⟩

/-- What a run of cell visits does to the cache entry of key `k` and to the
events of the batch that carry the note of key `k`: both are determined by the
readings of the visited cells that the table maps to `k`, in visiting order. -/
theorem scan_cells_key (reading : Nat → Nat → Nat) (k : Nat) (hk : k ≤ 36) :
    ∀ (cs : List (Nat × Nat)) (s s' : scan_state), s.keys.length = 37 →
      scan_cells reading cs s = some s' →
      s'.keys.length = 37 ∧
      s'.keys.getD k 0 = final_value (s.keys.getD k 0)
          ((cs.filter (fun c => key_hash c.1 c.2 = k)).map (fun c => reading c.1 c.2)) ∧
      s'.midi_events.filter (fun e => e.key = k + 36) =
        s.midi_events.filter (fun e => e.key = k + 36) ++
          (changes (s.keys.getD k 0)
            ((cs.filter (fun c => key_hash c.1 c.2 = k)).map (fun c => reading c.1 c.2))).map
            (fun v => { key := k + 36, velocity := v * 100 % 256 })
  | [], s, s', hlen, h => by
    simp only [scan_cells, Option.some.injEq] at h
    subst h
    simp [final_value, changes, hlen]
  | c :: rest, s, s', hlen, h => by
    simp only [scan_cells] at h
    cases hc : scan_cell c.1 c.2 (reading c.1 c.2) s with
    | none =>
      rw [hc] at h
      cases h
    | some s1 =>
      rw [hc] at h
      have hcell := scan_cell_key c.1 c.2 (reading c.1 c.2) k hk s s1 hlen hc
      have ih := scan_cells_key reading k hk rest s1 s' hcell.1 h
      by_cases hkey : key_hash c.1 c.2 = k
      · obtain ⟨hv, hev⟩ := hcell.2.1 hkey
        have hf : (c :: rest).filter (fun c => decide (key_hash c.1 c.2 = k)) =
            c :: rest.filter (fun c => decide (key_hash c.1 c.2 = k)) := by
          simp [List.filter_cons, hkey]
        rw [hf, List.map_cons]
        rw [hv, hev] at ih
        refine ⟨ih.1, ih.2.1, ?_⟩
        rw [ih.2.2]
        by_cases hne : s.keys.getD k 0 ≠ reading c.1 c.2
        · rw [if_pos hne]
          simp only [changes, if_pos hne, List.map_cons, List.append_assoc,
            List.singleton_append]
        · have heq : s.keys.getD k 0 = reading c.1 c.2 := by
            by_contra hcon; exact hne hcon
          rw [if_neg hne]
          simp only [changes, List.append_nil, heq, ne_eq, not_true_eq_false, if_false]
      · obtain ⟨hv, hev⟩ := hcell.2.2 hkey
        have hf : (c :: rest).filter (fun c => decide (key_hash c.1 c.2 = k)) =
            rest.filter (fun c => decide (key_hash c.1 c.2 = k)) := by
          simp [List.filter_cons, hkey]
        rw [hf]
        rw [hv, hev] at ih
        exact ih

/-- The inner loop of a pass is the run of cell visits over the eight inputs. -/
theorem scan_inputs_eq_scan_cells (reading : Nat → Nat → Nat) (i : Nat) :
    ∀ (js : List Nat) (s : scan_state),
      scan_inputs i (reading i) js s = scan_cells reading (js.map (fun j => (i, j))) s
  | [], _ => rfl
  | j :: rest, s => by
    simp only [scan_inputs, List.map_cons, scan_cells]
    congr 1
    funext s1
    exact scan_inputs_eq_scan_cells reading i rest s1

theorem scan_cells_append (reading : Nat → Nat → Nat) :
    ∀ (cs ds : List (Nat × Nat)) (s : scan_state),
      scan_cells reading (cs ++ ds) s = (scan_cells reading cs s).bind (scan_cells reading ds)
  | [], _, _ => rfl
  | c :: rest, ds, s => by
    simp only [List.cons_append, scan_cells]
    cases scan_cell c.1 c.2 (reading c.1 c.2) s with
    | none => rfl
    | some s1 => exact scan_cells_append reading rest ds s1

/-- Over a device that answers every call, the outer loop of a pass is the run
of cell visits over the lines still to drive. -/
theorem scan_lines_eq_scan_cells (reading : Nat → Nat → Nat) :
    ∀ (lines : List Nat) (s : scan_state),
      scan_lines (gpio_reading reading) lines s =
        pass_outcome.of_option (scan_cells reading
          (lines.flatMap (fun i => (List.range 8).map (fun j => (i, j)))) s)
  | [], _ => rfl
  | i :: rest, s => by
    simp only [scan_lines, gpio_reading, lt_self_iff_false, if_false, List.flatMap_cons]
    rw [scan_cells_append, scan_inputs_eq_scan_cells]
    cases scan_cells reading ((List.range 8).map (fun j => (i, j))) s with
    | none => rfl
    | some s1 => exact scan_lines_eq_scan_cells reading rest s1

theorem scan_pass_eq_scan_cells (keys : List Nat) (reading : Nat → Nat → Nat) :
    scan_pass keys reading =
      pass_outcome.of_option (scan_cells reading scan_order { keys := keys, midi_events := [] }) :=
  scan_lines_eq_scan_cells reading (List.range 5) _

theorem mem_scan_order (i j : Nat) (hi : i < 5) (hj : j < 8) : (i, j) ∈ scan_order := by
  have h : ∀ i < 5, ∀ j < 8, (i, j) ∈ scan_order := by decide
  exact h i hi j hj

set_option maxRecDepth 100000 in
/-- A cell of the matrix whose table entry is not 0 is the only cell with that entry. -/
theorem key_hash_cell_unique :
    ∀ c ∈ scan_order, key_hash c.1 c.2 ≠ 0 →
      scan_order.filter (fun d => key_hash d.1 d.2 = key_hash c.1 c.2) = [c] := by
  decide

/-- The cells whose table entry is 0: the three without an initialiser, then
the one of logical key 0. -/
theorem key_hash_zero_cells :
    scan_order.filter (fun d => key_hash d.1 d.2 = 0) = [(0, 1), (0, 3), (0, 5), (2, 7)] := by
  decide

theorem scan_pass_completed (keys : List Nat) (reading : Nat → Nat → Nat) (s' : scan_state)
    (h : scan_pass keys reading = .completed s') :
    scan_cells reading scan_order { keys := keys, midi_events := [] } = some s' := by
  rw [scan_pass_eq_scan_cells] at h
  cases hsc : scan_cells reading scan_order { keys := keys, midi_events := [] } with
  | none => rw [hsc] at h; cases h
  | some s2 =>
    rw [hsc] at h
    simp only [pass_outcome.of_option, pass_outcome.completed.injEq] at h
    rw [h]

/-- C4. One complete matrix scan pass of the client `main_loop`, for every
cached KeyState of 37 binary entries, every binary 5x8 reading and every
logical key `k` in 1..36 with cell `(i, j)` such that `key_hash[i][j] = k`:
if the reading at `(i, j)` differs from `keys[k]` the batch contains exactly
one event with key `k + 36`, of velocity 100 when the reading is 1 and 0 when
it is 0; if it equals `keys[k]` the batch contains no event with key `k + 36`;
in both cases `keys[k]` equals the reading afterwards.  This holds for every
pass that stays within the 16 entries of `midi_events` (second part); a pass
over seventeen simultaneous changes stores past the end of the array (first
part). -/
theorem scan_pass_edge_detection :
    scan_pass keys_init reading_seventeen_held = .out_of_bounds ∧
    ∀ (keys : List Nat) (reading : Nat → Nat → Nat) (k i j : Nat) (s' : scan_state),
      keys.length = 37 → (∀ x ∈ keys, x ≤ 1) →
      (∀ i < 5, ∀ j < 8, reading i j ≤ 1) →
      1 ≤ k → k ≤ 36 → i < 5 → j < 8 → key_hash i j = k →
      scan_pass keys reading = .completed s' →
      (reading i j ≠ keys.getD k 0 →
        s'.midi_events.filter (fun e => e.key = k + 36) =
          [{ key := k + 36, velocity := if reading i j = 1 then 100 else 0 }]) ∧
      (reading i j = keys.getD k 0 →
        s'.midi_events.filter (fun e => e.key = k + 36) = []) ∧
      s'.keys.getD k 0 = reading i j := by
  refine ⟨rfl, ?_⟩
  intro keys reading k i j s' hlen _ hbin hk1 hk36 hi hj hcell hpass
  have hsc := scan_pass_completed keys reading s' hpass
  have hP := scan_cells_key reading k hk36 scan_order _ s' hlen hsc
  have hfilter := key_hash_cell_unique (i, j) (mem_scan_order i j hi hj)
    (by simp only [hcell]; omega)
  simp only [hcell] at hfilter
  rw [hfilter] at hP
  simp only [List.map_cons, List.map_nil, final_value, changes, List.filter_nil,
    List.nil_append] at hP
  have hval : reading i j * 100 % 256 = if reading i j = 1 then 100 else 0 := by
    have hb := hbin i hi j hj
    have h01 : reading i j = 0 ∨ reading i j = 1 := by omega
    rcases h01 with h0 | h1
    · simp [h0]
    · simp [h1]
  refine ⟨?_, ?_, hP.2.1⟩
  · intro hne
    rw [hP.2.2, if_pos (fun h => hne h.symm)]
    simp only [List.map_cons, List.map_nil, hval]
  · intro heq
    rw [hP.2.2, if_neg (not_not.mpr heq.symm)]
    rfl

theorem scan_pass_edge_detection_witness :
    scan_pass keys_init reading_key1_held = .completed ⟨keys_key1_held, [⟨37, 100⟩]⟩ ∧
    ([⟨37, 100⟩] : List midi_event_t).filter (fun e => e.key = 1 + 36) =
      [{ key := 1 + 36, velocity := if reading_key1_held 2 2 = 1 then 100 else 0 }] ∧
    keys_key1_held.getD 1 0 = reading_key1_held 2 2 :=
  have h := scan_pass_edge_detection.2 keys_init reading_key1_held 1 2 2
    ⟨keys_key1_held, [⟨37, 100⟩]⟩
    (by decide) (by decide) (by decide) (by decide) (by decide) (by decide) (by decide)
    (by decide) rfl
  ⟨rfl, h.1 (by decide), h.2.2⟩

/-- A run of cell visits over readings that all equal the cache changes nothing. -/
theorem scan_cells_idle (reading : Nat → Nat → Nat) :
    ∀ (cs : List (Nat × Nat)) (s : scan_state),
      (∀ c ∈ cs, s.keys.getD (key_hash c.1 c.2) 0 = reading c.1 c.2) →
      scan_cells reading cs s = some s
  | [], _, _ => rfl
  | c :: rest, s, h => by
    have hc : scan_cell c.1 c.2 (reading c.1 c.2) s = some s := by
      unfold scan_cell
      have heq := h c (List.mem_cons_self _ _)
      simp only [ne_eq, heq, not_true_eq_false, if_false]
    simp only [scan_cells, hc]
    exact scan_cells_idle reading rest s (fun d hd => h d (List.mem_cons_of_mem _ hd))

/-- After a completed pass the cache agrees with the reading on every cell,
provided the three cells without a table entry read like cell (2,7). -/
theorem scan_pass_cache_agrees (keys : List Nat) (reading : Nat → Nat → Nat) (s1 : scan_state)
    (hlen : keys.length = 37)
    (h01 : reading 0 1 = reading 2 7) (h03 : reading 0 3 = reading 2 7)
    (h05 : reading 0 5 = reading 2 7)
    (hpass : scan_pass keys reading = .completed s1) :
    ∀ c ∈ scan_order, s1.keys.getD (key_hash c.1 c.2) 0 = reading c.1 c.2 := by
  intro c hc
  have hsc := scan_pass_completed keys reading s1 hpass
  have hP := (scan_cells_key reading (key_hash c.1 c.2) (key_hash_le _ _) scan_order _ s1
    hlen hsc).2.1
  by_cases h0 : key_hash c.1 c.2 = 0
  · rw [h0] at hP ⊢
    rw [key_hash_zero_cells] at hP
    simp only [List.map_cons, List.map_nil, final_value] at hP
    have hmem : c ∈ scan_order.filter (fun d => key_hash d.1 d.2 = 0) :=
      List.mem_filter.mpr ⟨hc, by simpa using h0⟩
    rw [key_hash_zero_cells] at hmem
    simp only [List.mem_cons, List.mem_singleton, List.not_mem_nil, or_false] at hmem
    rcases hmem with h | h | h | h <;> subst h <;> simp only [hP, h01, h03, h05]
  · rw [key_hash_cell_unique c hc h0] at hP
    simpa [final_value] using hP

/-- C5. Idempotence of scan: once a pass over a reading has been applied, a
further pass over the same reading should produce an empty batch and leave the
cache unchanged.  With logical key 0 held (cell (2,7) reads 1, all else 0) the
second pass is not empty: the cells without a table entry share `keys[0]` and
read 0, so the pass emits note-off then note-on for key 0 (first part).  The
property holds for every reading whose cells (0,1), (0,3), (0,5) read like
cell (2,7) (second part). -/
theorem scan_pass_repeated :
    (scan_pass keys_init reading_key0_held = .completed ⟨keys_key0_held, [⟨36, 100⟩]⟩ ∧
     scan_pass keys_key0_held reading_key0_held =
       .completed ⟨keys_key0_held, [⟨36, 0⟩, ⟨36, 100⟩]⟩) ∧
    ∀ (keys : List Nat) (reading : Nat → Nat → Nat) (s1 : scan_state),
      keys.length = 37 →
      reading 0 1 = reading 2 7 → reading 0 3 = reading 2 7 → reading 0 5 = reading 2 7 →
      scan_pass keys reading = .completed s1 →
      scan_pass s1.keys reading = .completed ⟨s1.keys, []⟩ := by
  refine ⟨⟨rfl, rfl⟩, ?_⟩
  intro keys reading s1 hlen h01 h03 h05 hpass
  rw [scan_pass_eq_scan_cells,
    scan_cells_idle reading scan_order ⟨s1.keys, []⟩
      (scan_pass_cache_agrees keys reading s1 hlen h01 h03 h05 hpass)]
  rfl

theorem scan_pass_repeated_witness :
    scan_pass keys_key1_held reading_all_released = .completed ⟨keys_init, [⟨37, 0⟩]⟩ ∧
    scan_pass keys_init reading_all_released = .completed ⟨keys_init, []⟩ :=
  ⟨rfl, scan_pass_repeated.2 keys_key1_held reading_all_released ⟨keys_init, [⟨37, 0⟩]⟩
    (by decide) rfl rfl rfl rfl⟩

/-- C6. Edge-triggering on cell (line 2, input 7), the cell of logical key 0:
from the all-released cache with every other cell reading 0, a pass in which
the cell reads 1 produces exactly one event, `{key = 0 + 36, velocity = 100}`;
a following pass in which it reads 0 again produces exactly one event,
`{key = 0 + 36, velocity = 0}`; run through the scan loop with both writes
accepted in full, the two batches sent hold these two events, both with key 36. -/
theorem edge_triggering_cell_2_7 :
    key_hash 2 7 = 0 ∧
    scan_pass keys_init reading_key0_held =
      .completed ⟨keys_key0_held, [{ key := 0 + 36, velocity := 100 }]⟩ ∧
    scan_pass keys_key0_held reading_all_released =
      .completed ⟨keys_init, [{ key := 0 + 36, velocity := 0 }]⟩ ∧
    (scan_loop [⟨gpio_reading reading_key0_held, 2⟩, ⟨gpio_reading reading_all_released, 2⟩]
        client_state.init).map (fun o => o.state.sent) =
      some [[{ key := 36, velocity := 100 }], [{ key := 36, velocity := 0 }]] :=
  ⟨rfl, rfl, rfl, rfl⟩

theorem changes_length_le : ∀ (values : List Nat) (v : Nat),
    (changes v values).length ≤ values.length
  | [], _ => Nat.le_refl _
  | x :: xs, v => by
    unfold changes
    split
    · simpa using changes_length_le xs x
    · exact Nat.le_succ_of_le (changes_length_le xs v)

/-- One cell visit either changes nothing or appends one event, within the array. -/
theorem scan_cell_batch (i j value : Nat) (s s1 : scan_state)
    (h : scan_cell i j value s = some s1) :
    s1 = s ∨
      (s1.midi_events.length = s.midi_events.length + 1 ∧
        s1.midi_events.length ≤ CONFIG_MAX_MIDI_EVENTS) := by
  unfold scan_cell at h
  by_cases hne : s.keys.getD (key_hash i j) 0 ≠ value
  · by_cases hroom : s.midi_events.length < CONFIG_MAX_MIDI_EVENTS
    · simp only [hne, hroom, if_true, not_false_eq_true, ne_eq, Option.some.injEq] at h
      subst h
      right
      simp only [List.length_append, List.length_singleton, true_and]
      omega
    · simp only [hne, hroom, if_true, if_false, not_false_eq_true, ne_eq] at h
      cases h
  · simp only [hne, if_false, Option.some.injEq] at h
    exact Or.inl h.symm

/-- A run of cell visits never shrinks the batch, keeps it within the array,
and leaves the whole state as it was when the batch did not grow. -/
theorem scan_cells_batch (reading : Nat → Nat → Nat) :
    ∀ (cs : List (Nat × Nat)) (s s' : scan_state),
      scan_cells reading cs s = some s' →
      s.midi_events.length ≤ s'.midi_events.length ∧
      (s.midi_events.length ≤ CONFIG_MAX_MIDI_EVENTS →
        s'.midi_events.length ≤ CONFIG_MAX_MIDI_EVENTS) ∧
      (s'.midi_events.length = s.midi_events.length → s' = s)
  | [], s, s', h => by
    simp only [scan_cells, Option.some.injEq] at h
    subst h
    exact ⟨Nat.le_refl _, fun h => h, fun _ => rfl⟩
  | c :: rest, s, s', h => by
    simp only [scan_cells] at h
    cases hc : scan_cell c.1 c.2 (reading c.1 c.2) s with
    | none =>
      rw [hc] at h
      cases h
    | some s1 =>
      rw [hc] at h
      have ih := scan_cells_batch reading rest s1 s' h
      rcases scan_cell_batch c.1 c.2 (reading c.1 c.2) s s1 hc with h1 | h1
      · rw [h1] at ih
        exact ih
      · refine ⟨by omega, fun _ => ih.2.1 h1.2, fun hlen => ?_⟩
        omega

set_option maxRecDepth 100000 in
/-- Every logical key 1..36 is the entry of exactly one cell of the matrix. -/
theorem key_hash_cells_of_key :
    ∀ k < 37, k ≠ 0 → (scan_order.filter (fun d => key_hash d.1 d.2 = k)).length = 1 := by
  decide

/-- C7. Batch size of one scan pass: the batch should hold at most one event
per logical key 0..36.  With keys 0 and 1 cached as pressed, key 0 still held
and key 1 released, one pass emits two events for logical key 0 (first part):
the cells without a table entry share `keys[0]`.  For every pass that stays
within the array `midi_events` the batch holds at most 16 events, at most one
per logical key 1..36 and at most four for logical key 0 (second part). -/
theorem scan_pass_batch_size :
    (scan_pass keys_key0_key1_held reading_key0_held =
        .completed ⟨keys_key0_held, [⟨36, 0⟩, ⟨37, 0⟩, ⟨36, 100⟩]⟩ ∧
     ([⟨36, 0⟩, ⟨37, 0⟩, ⟨36, 100⟩] : List midi_event_t).filter (fun e => e.key = 0 + 36) =
        [⟨36, 0⟩, ⟨36, 100⟩]) ∧
    ∀ (keys : List Nat) (reading : Nat → Nat → Nat) (s' : scan_state),
      keys.length = 37 →
      scan_pass keys reading = .completed s' →
      s'.midi_events.length ≤ CONFIG_MAX_MIDI_EVENTS ∧
      (∀ k, 1 ≤ k → k ≤ 36 → (s'.midi_events.filter (fun e => e.key = k + 36)).length ≤ 1) ∧
      (s'.midi_events.filter (fun e => e.key = 0 + 36)).length ≤ 4 := by
  refine ⟨⟨rfl, rfl⟩, ?_⟩
  intro keys reading s' hlen hpass
  have hsc := scan_pass_completed keys reading s' hpass
  refine ⟨(scan_cells_batch reading scan_order _ s' hsc).2.1 (Nat.zero_le _), ?_, ?_⟩
  · intro k hk1 hk36
    have hP := (scan_cells_key reading k hk36 scan_order _ s' hlen hsc).2.2
    rw [hP]
    have hlen1 := key_hash_cells_of_key k (by omega) (by omega)
    have hch := changes_length_le
      ((scan_order.filter (fun d => key_hash d.1 d.2 = k)).map (fun c => reading c.1 c.2))
      (keys.getD k 0)
    simp only [List.filter_nil, List.nil_append, List.length_map] at hch ⊢
    omega
  · have hP := (scan_cells_key reading 0 (by omega) scan_order _ s' hlen hsc).2.2
    rw [hP, key_hash_zero_cells]
    have hch := changes_length_le
      ([(0, 1), (0, 3), (0, 5), (2, 7)].map (fun c : Nat × Nat => reading c.1 c.2))
      (keys.getD 0 0)
    simp only [List.filter_nil, List.nil_append, List.length_map, List.length_cons,
      List.length_nil] at hch ⊢
    omega

theorem scan_pass_batch_size_witness :
    scan_pass keys_key0_held reading_key1_held =
      .completed ⟨keys_key1_held, [⟨36, 0⟩, ⟨37, 100⟩]⟩ ∧
    ([⟨36, 0⟩, ⟨37, 100⟩] : List midi_event_t).length ≤ CONFIG_MAX_MIDI_EVENTS :=
  ⟨rfl, (scan_pass_batch_size.2 keys_key0_held reading_key1_held
    ⟨keys_key1_held, [⟨36, 0⟩, ⟨37, 100⟩]⟩ (by decide) rfl).1⟩

/-! ## The backoff of the scan loop -/

theorem scan_inputs_batch (i : Nat) (values : Nat → Nat) (js : List Nat) (s s' : scan_state)
    (h : scan_inputs i values js s = some s') :
    s.midi_events.length ≤ s'.midi_events.length ∧
      (s'.midi_events.length = s.midi_events.length → s' = s) := by
  have heq := scan_inputs_eq_scan_cells (fun _ j => values j) i js s
  have hb := scan_cells_batch (fun _ j => values j) (js.map (fun j => (i, j))) s s'
    (heq.symm.trans h)
  exact ⟨hb.1, hb.2.2⟩

/-- A completed pass never shrinks the batch, and changes nothing when the
batch did not grow. -/
theorem scan_lines_batch (gpio : Nat → gpio_answers) :
    ∀ (lines : List Nat) (s sc : scan_state),
      scan_lines gpio lines s = .completed sc →
      s.midi_events.length ≤ sc.midi_events.length ∧
        (sc.midi_events.length = s.midi_events.length → sc = s)
  | [], s, sc, h => by
    simp only [scan_lines, pass_outcome.completed.injEq] at h
    subst h
    exact ⟨Nat.le_refl _, fun _ => rfl⟩
  | i :: rest, s, sc, h => by
    unfold scan_lines at h
    split at h
    · cases h
    · split at h
      · cases h
      · split at h
        · cases h
        · rename_i s1 hs1
          have h1 := scan_inputs_batch i (gpio i).values (List.range 8) s s1 hs1
          have h2 := scan_lines_batch gpio rest s1 sc h
          refine ⟨by omega, fun hlen => ?_⟩
          have e1 : s1 = s := h1.2 (by omega)
          rw [e1] at h2
          exact h2.2 hlen

theorem pass_is_idle_completed (inp : iteration_input) (keys : List Nat)
    (h : pass_is_idle inp keys = true) :
    scan_lines inp.gpio (List.range 5) { keys := keys, midi_events := [] } =
      .completed { keys := keys, midi_events := [] } := by
  unfold pass_is_idle at h
  split at h
  · rename_i sc hsc
    have hb := (scan_lines_batch inp.gpio (List.range 5) _ sc hsc).2
    have hnil : sc.midi_events = [] := by simpa using h
    rw [hsc, hb (by simp [hnil])]
  · cases h

theorem to_int32_of_small (x : Int) (h0 : 0 ≤ x) (h1 : x < 2147483648) : to_int32 x = x := by
  unfold to_int32
  omega

/-- The interval after an idle pass entered with interval `min (2 ^ m) 65536`. -/
theorem backoff_double (m : Nat) :
    (if ((min (2 ^ m) CONFIG_MAX_GPIO_TIMEOUT : Nat) : Int) < (CONFIG_MAX_GPIO_TIMEOUT : Int)
      then to_int32 (((min (2 ^ m) CONFIG_MAX_GPIO_TIMEOUT : Nat) : Int) * 2)
      else ((min (2 ^ m) CONFIG_MAX_GPIO_TIMEOUT : Nat) : Int)) =
    ((min (2 ^ (m + 1)) CONFIG_MAX_GPIO_TIMEOUT : Nat) : Int) := by
  have hmax : CONFIG_MAX_GPIO_TIMEOUT = 2 ^ 16 := by decide
  rw [hmax]
  by_cases hm : m < 16
  · have h1 : 2 ^ m < 2 ^ 16 := Nat.pow_lt_pow_right (by omega) hm
    have h2 : 2 ^ (m + 1) ≤ 2 ^ 16 := Nat.pow_le_pow_right (by omega) (by omega)
    have h3 : 2 ^ (m + 1) = 2 ^ m * 2 := Nat.pow_succ 2 m
    rw [Nat.min_eq_left (Nat.le_of_lt h1), Nat.min_eq_left h2, h3]
    generalize 2 ^ m = x at h1 ⊢
    have hx : ((x : Nat) : Int) < ((2 ^ 16 : Nat) : Int) := by exact_mod_cast h1
    rw [if_pos hx, to_int32_of_small _ (by omega) (by norm_num at hx ⊢; omega)]
    push_cast
    ring
  · have h1 : 2 ^ 16 ≤ 2 ^ m := Nat.pow_le_pow_right (by omega) (by omega)
    have h2 : 2 ^ 16 ≤ 2 ^ (m + 1) := Nat.pow_le_pow_right (by omega) (by omega)
    rw [Nat.min_eq_right h1, Nat.min_eq_right h2]
    simp

/-- An idle iteration sleeps for the current interval and leaves everything but
the interval and the record of sleeps as it was. -/
theorem scan_iteration_idle (inp : iteration_input) (s : client_state)
    (h : pass_is_idle inp s.keys = true) :
    scan_iteration inp s = some (.running
      { keys := s.keys
        gpio_timeout :=
          if s.gpio_timeout < (CONFIG_MAX_GPIO_TIMEOUT : Int) then to_int32 (s.gpio_timeout * 2)
          else s.gpio_timeout
        sent := s.sent
        slept := s.slept ++ [s.gpio_timeout] }) := by
  unfold scan_iteration
  rw [pass_is_idle_completed inp s.keys h]
  simp only [after_pass, List.length_nil, gt_iff_lt, lt_self_iff_false, if_false]
  split <;> rfl

/-- A run of idle iterations entered with interval `min (2 ^ m) 65536`. -/
theorem scan_loop_idle_run : ∀ (iters : List iteration_input) (s : client_state) (m : Nat),
    s.gpio_timeout = ((min (2 ^ m) CONFIG_MAX_GPIO_TIMEOUT : Nat) : Int) →
    (∀ inp ∈ iters, pass_is_idle inp s.keys = true) →
    scan_loop iters s = some (.running
      { keys := s.keys
        gpio_timeout := ((min (2 ^ (m + iters.length)) CONFIG_MAX_GPIO_TIMEOUT : Nat) : Int)
        sent := s.sent
        slept := s.slept ++ (List.range iters.length).map
          (fun k => ((min (2 ^ (m + k)) CONFIG_MAX_GPIO_TIMEOUT : Nat) : Int)) })
  | [], s, m, ht, _ => by
    simp only [scan_loop, List.length_nil, Nat.add_zero, List.range_zero, List.map_nil,
      List.append_nil, ← ht]
  | inp :: rest, s, m, ht, hidle => by
    have h1 := scan_iteration_idle inp s (hidle inp (List.mem_cons_self _ _))
    rw [ht, backoff_double m] at h1
    simp only [scan_loop, h1]
    rw [scan_loop_idle_run rest
      { keys := s.keys
        gpio_timeout := ((min (2 ^ (m + 1)) CONFIG_MAX_GPIO_TIMEOUT : Nat) : Int)
        sent := s.sent
        slept := s.slept ++ [((min (2 ^ m) CONFIG_MAX_GPIO_TIMEOUT : Nat) : Int)] }
      (m + 1) rfl (fun inp h => hidle inp (List.mem_cons_of_mem _ h))]
    have hlen : m + 1 + rest.length = m + (inp :: rest).length := by
      simp only [List.length_cons]; omega
    have hfun : (fun k => ((min (2 ^ (m + 1 + k)) CONFIG_MAX_GPIO_TIMEOUT : Nat) : Int)) =
        (fun k => ((min (2 ^ (m + k)) CONFIG_MAX_GPIO_TIMEOUT : Nat) : Int)) ∘ Nat.succ := by
      funext k
      simp only [Function.comp, Nat.succ_eq_add_one]
      rw [show m + 1 + k = m + (k + 1) by omega]
    simp only [hlen, hfun, List.length_cons, List.range_succ_eq_map, List.map_cons,
      List.map_map, Nat.add_zero, List.append_assoc, List.singleton_append]

/-- C8. Backoff sequence of the client scan loop: starting from interval 1,
a run of consecutive idle iterations sleeps, at its `k`-th iteration
(`k = 0, 1, 2, ...`), for `min (2 ^ k) CONFIG_MAX_GPIO_TIMEOUT` microseconds,
where `CONFIG_MAX_GPIO_TIMEOUT = 65536`, and the loop keeps running; and an
iteration whose pass found changes and whose batch `write` accepted in full
sets the interval to 1, whatever it was. -/
theorem backoff_sequence :
    CONFIG_MAX_GPIO_TIMEOUT = 65536 ∧
    (∀ (iters : List iteration_input) (s : client_state),
      s.gpio_timeout = 1 →
      (∀ inp ∈ iters, pass_is_idle inp s.keys = true) →
      scan_loop iters s = some (.running
        { keys := s.keys
          gpio_timeout := ((min (2 ^ iters.length) CONFIG_MAX_GPIO_TIMEOUT : Nat) : Int)
          sent := s.sent
          slept := s.slept ++ (List.range iters.length).map
            (fun k => ((min (2 ^ k) CONFIG_MAX_GPIO_TIMEOUT : Nat) : Int)) })) ∧
    (∀ (inp : iteration_input) (s : client_state) (sc : scan_state),
      scan_lines inp.gpio (List.range 5) { keys := s.keys, midi_events := [] } = .completed sc →
      sc.midi_events ≠ [] →
      inp.write_result = sc.midi_events.length * sizeof_midi_event_t →
      scan_iteration inp s = some (.running
        { keys := sc.keys
          gpio_timeout := 1
          sent := s.sent ++ [sc.midi_events]
          slept := s.slept })) := by
  refine ⟨rfl, ?_, ?_⟩
  · intro iters s ht hidle
    have h := scan_loop_idle_run iters s 0 (by rw [ht]; rfl) hidle
    simpa only [Nat.zero_add] using h
  · intro inp s sc hpass hne hw
    have hpos : sc.midi_events.length > 0 := List.length_pos.mpr hne
    simp only [scan_iteration, hpass, after_pass, hpos, if_true, hw, ne_eq, not_true_eq_false,
      if_false]

theorem backoff_sequence_witness :
    scan_loop (List.replicate 18 ⟨gpio_reading reading_all_released, 0⟩) client_state.init =
      some (.running
        { keys := keys_init
          gpio_timeout := 65536
          sent := []
          slept := [1, 2, 4, 8, 16, 32, 64, 128, 256, 512, 1024, 2048, 4096, 8192, 16384,
            32768, 65536, 65536] }) ∧
    scan_iteration ⟨gpio_reading reading_key0_held, 2⟩
        { keys := keys_init, gpio_timeout := 65536, sent := [], slept := [] } =
      some (.running
        { keys := keys_key0_held, gpio_timeout := 1, sent := [[⟨36, 100⟩]], slept := [] }) :=
  ⟨(backoff_sequence.2.1 (List.replicate 18 ⟨gpio_reading reading_all_released, 0⟩)
      client_state.init rfl (by
        intro inp h
        rw [List.eq_of_mem_replicate h]
        rfl)).trans (by decide),
   backoff_sequence.2.2 ⟨gpio_reading reading_key0_held, 2⟩
      { keys := keys_init, gpio_timeout := 65536, sent := [], slept := [] }
      ⟨keys_key0_held, [⟨36, 100⟩]⟩ rfl (by decide) rfl⟩

/-- What follows a pass keeps the interval a power of two not above `2 ^ 16`. -/
theorem after_pass_power_of_two (midi_events : List midi_event_t) (write_result : Int)
    (s : client_state) (h : ∃ m, m ≤ 16 ∧ s.gpio_timeout = ((2 ^ m : Nat) : Int)) :
    ∃ m, m ≤ 16 ∧
      (after_pass midi_events write_result s).state.gpio_timeout = ((2 ^ m : Nat) : Int) := by
  obtain ⟨m, hm, ht⟩ := h
  unfold after_pass
  by_cases hcount : midi_events.length > 0
  · simp only [hcount, if_true]
    split
    · exact ⟨m, hm, ht⟩
    · exact ⟨0, by omega, rfl⟩
  · simp only [hcount, if_false]
    by_cases hlt : s.gpio_timeout < (CONFIG_MAX_GPIO_TIMEOUT : Int)
    · simp only [hlt, if_true, outcome.state]
      have hmax : (CONFIG_MAX_GPIO_TIMEOUT : Int) = ((2 ^ 16 : Nat) : Int) := by decide
      rw [hmax, ht] at hlt
      have hlt2 : 2 ^ m < 2 ^ 16 := by exact_mod_cast hlt
      have hm16 : m < 16 := (Nat.pow_lt_pow_iff_right (by omega)).mp hlt2
      refine ⟨m + 1, by omega, ?_⟩
      have h3 : 2 ^ (m + 1) = 2 ^ m * 2 := Nat.pow_succ 2 m
      rw [ht, h3]
      generalize 2 ^ m = x at hlt2 ⊢
      rw [to_int32_of_small _ (by omega) (by norm_num at hlt2; omega)]
      push_cast
      ring
    · simp only [hlt, if_false, outcome.state]
      exact ⟨m, hm, ht⟩

theorem scan_iteration_power_of_two (inp : iteration_input) (s : client_state)
    (o : outcome action_code_t client_state)
    (h : ∃ m, m ≤ 16 ∧ s.gpio_timeout = ((2 ^ m : Nat) : Int))
    (hrun : scan_iteration inp s = some o) :
    ∃ m, m ≤ 16 ∧ o.state.gpio_timeout = ((2 ^ m : Nat) : Int) := by
  unfold scan_iteration at hrun
  split at hrun
  · cases hrun
  · simp only [Option.some.injEq] at hrun
    subst hrun
    exact h
  · simp only [Option.some.injEq] at hrun
    subst hrun
    exact after_pass_power_of_two _ _ _ h

theorem scan_loop_power_of_two : ∀ (iters : List iteration_input) (s : client_state)
    (o : outcome action_code_t client_state),
    (∃ m, m ≤ 16 ∧ s.gpio_timeout = ((2 ^ m : Nat) : Int)) →
    scan_loop iters s = some o →
    ∃ m, m ≤ 16 ∧ o.state.gpio_timeout = ((2 ^ m : Nat) : Int)
  | [], s, o, h, hrun => by
    simp only [scan_loop, Option.some.injEq] at hrun
    subst hrun
    exact h
  | inp :: rest, s, o, h, hrun => by
    unfold scan_loop at hrun
    split at hrun
    · cases hrun
    · rename_i code s1 hit
      simp only [Option.some.injEq] at hrun
      subst hrun
      exact scan_iteration_power_of_two inp s _ h hit
    · rename_i s1 hit
      exact scan_loop_power_of_two rest s1 o (scan_iteration_power_of_two inp s _ h hit) hrun

theorem power_of_two_bounds (t : Int) (h : ∃ m, m ≤ 16 ∧ t = ((2 ^ m : Nat) : Int)) :
    1 ≤ t ∧ t ≤ (CONFIG_MAX_GPIO_TIMEOUT : Int) ∧ to_int32 (t * 2) = t * 2 := by
  obtain ⟨m, hm, ht⟩ := h
  have h1 : 1 ≤ 2 ^ m := Nat.one_le_two_pow
  have h2 : 2 ^ m ≤ 2 ^ 16 := Nat.pow_le_pow_right (by omega) hm
  have hmax : (CONFIG_MAX_GPIO_TIMEOUT : Int) = 65536 := by decide
  rw [hmax, ht]
  generalize 2 ^ m = x at h1 h2
  norm_num at h2
  refine ⟨by omega, by omega, to_int32_of_small _ (by omega) (by omega)⟩

/-- C9. The backoff interval as an invariant of the reachable states of the
client scan loop: starting from `gpio_timeout = 1`, after every finite sequence
of iterations (idle or not, whatever the device and the socket answer) the
interval satisfies `1 ≤ gpio_timeout ≤ CONFIG_MAX_GPIO_TIMEOUT` and doubling
it stays within the 32-bit `int`; and whatever pass precedes it, the end of an
iteration keeps these bounds. -/
theorem gpio_timeout_bounded (iters : List iteration_input) (s : client_state)
    (o : outcome action_code_t client_state)
    (hinit : s.gpio_timeout = 1) (hrun : scan_loop iters s = some o) :
    (1 ≤ o.state.gpio_timeout ∧
      o.state.gpio_timeout ≤ (CONFIG_MAX_GPIO_TIMEOUT : Int) ∧
      to_int32 (o.state.gpio_timeout * 2) = o.state.gpio_timeout * 2) ∧
    ∀ (midi_events : List midi_event_t) (write_result : Int),
      1 ≤ (after_pass midi_events write_result o.state).state.gpio_timeout ∧
      (after_pass midi_events write_result o.state).state.gpio_timeout ≤
        (CONFIG_MAX_GPIO_TIMEOUT : Int) := by
  have hinv := scan_loop_power_of_two iters s o ⟨0, by omega, by rw [hinit]; rfl⟩ hrun
  refine ⟨power_of_two_bounds _ hinv, ?_⟩
  intro midi_events write_result
  have h := power_of_two_bounds _ (after_pass_power_of_two midi_events write_result o.state hinv)
  exact ⟨h.1, h.2.1⟩

theorem gpio_timeout_bounded_witness :
    (1 : Int) ≤ 2 ∧ (2 : Int) ≤ (CONFIG_MAX_GPIO_TIMEOUT : Int) :=
  have h := gpio_timeout_bounded
    [⟨gpio_reading reading_key0_held, 2⟩, ⟨gpio_reading reading_key0_held, 4⟩,
      ⟨gpio_reading reading_all_released, 2⟩, ⟨gpio_reading reading_all_released, 0⟩]
    client_state.init
    (.running
      { keys := keys_init, gpio_timeout := 2
        sent := [[⟨36, 100⟩], [⟨36, 0⟩, ⟨36, 100⟩], [⟨36, 0⟩]], slept := [1] })
    rfl (by decide)
  ⟨h.1.1, h.1.2.1⟩

end Client

/-! ## Client disconnect on the server -/

namespace Server

/-- C10. Client disconnect in the server `main_loop`: a client stream that is
reported read-ready and whose read returns 0 bytes or an error should be closed
and removed from the set while everything else stays.  In the code the read
branch only does `continue`: the loop keeps running with the open descriptors
and the interest list exactly as they were, the failed stream included (first
part); `close(fd)` is reached only for a ready entry without `EPOLLIN` (second
part). -/
theorem client_read_failure_keeps_descriptor :
    (∀ (common : common_t) (event : epoll_event) (os : syscall_results) (s : server_state),
      event.fd ≠ common.server_fd → event.events &&& EPOLLIN ≠ 0 → os.read ≤ 0 →
      handle_ready common event os s = .running s) ∧
    (∀ (common : common_t) (event : epoll_event) (os : syscall_results) (s : server_state),
      event.fd ≠ common.server_fd → event.events &&& EPOLLIN = 0 →
      handle_ready common event os s = .running (close_fd event.fd s)) := by
  refine ⟨?_, ?_⟩
  · intro common event os s hfd hin hread
    simp only [handle_ready, if_neg hfd, if_pos hin, if_pos hread]
  · intro common event os s hfd hin
    have hnot : ¬ (event.events &&& EPOLLIN ≠ 0) := not_not.mpr hin
    simp only [handle_ready, if_neg hfd, if_neg hnot]

theorem client_read_failure_keeps_descriptor_witness :
    handle_ready ⟨3, 4, 5, ⟨14, 0⟩⟩ ⟨EPOLLIN, 7⟩ ⟨0, 0, 0, [], 0⟩
        ⟨[8, 7, 4], [⟨EPOLLIN ||| EPOLLET, 8⟩, ⟨EPOLLIN ||| EPOLLET, 7⟩, ⟨EPOLLIN, 4⟩], []⟩ =
      .running
        ⟨[8, 7, 4], [⟨EPOLLIN ||| EPOLLET, 8⟩, ⟨EPOLLIN ||| EPOLLET, 7⟩, ⟨EPOLLIN, 4⟩], []⟩ ∧
    main_loop ⟨3, 4, 5, ⟨14, 0⟩⟩ [(1, [(⟨EPOLLIN, 7⟩, ⟨0, 0, 0, [], 0⟩)])]
        ⟨[8, 7, 4], [⟨EPOLLIN ||| EPOLLET, 8⟩, ⟨EPOLLIN ||| EPOLLET, 7⟩, ⟨EPOLLIN, 4⟩], []⟩ =
      .running
        ⟨[8, 7, 4], [⟨EPOLLIN ||| EPOLLET, 8⟩, ⟨EPOLLIN ||| EPOLLET, 7⟩, ⟨EPOLLIN, 4⟩], []⟩ ∧
    (7 : Int) ∈ ([8, 7, 4] : List Int) :=
  ⟨client_read_failure_keeps_descriptor.1 ⟨3, 4, 5, ⟨14, 0⟩⟩ ⟨EPOLLIN, 7⟩ ⟨0, 0, 0, [], 0⟩
      ⟨[8, 7, 4], [⟨EPOLLIN ||| EPOLLET, 8⟩, ⟨EPOLLIN ||| EPOLLET, 7⟩, ⟨EPOLLIN, 4⟩], []⟩
      (by decide) (by decide) (by decide),
    by decide, by decide⟩

end Server

/-! ## Fatal paths of the server -/

namespace Server

theorem andThen_returned {κ σ : Type} (c : κ) (s : σ) (f : σ → outcome κ σ) :
    (outcome.returned c s).andThen f = outcome.returned c s := rfl

theorem andThen_running {κ σ : Type} (s : σ) (f : σ → outcome κ σ) :
    (outcome.running s : outcome κ σ).andThen f = f s := rfl

/-- The codes the body of the `for` loop can return. -/
theorem handle_ready_code (common : common_t) (event : epoll_event) (os : syscall_results)
    (s : server_state) :
    (handle_ready common event os s).code = none ∨
    (handle_ready common event os s).code = some .ACCEPT_CLIENT_ACTION_CODE ∨
    (handle_ready common event os s).code = some .EPOLL_ADD_CLIENT_SOCKET_ACTION_CODE ∨
    (handle_ready common event os s).code = some .WRITE_SEQ_EVENTS_ACTION_CODE := by
  unfold handle_ready
  simp only []
  split_ifs <;> simp [outcome.code]

theorem handle_all_code (common : common_t) :
    ∀ (events : List (epoll_event × syscall_results)) (s : server_state),
      (handle_all common events s).code = none ∨
      (handle_all common events s).code = some .ACCEPT_CLIENT_ACTION_CODE ∨
      (handle_all common events s).code = some .EPOLL_ADD_CLIENT_SOCKET_ACTION_CODE ∨
      (handle_all common events s).code = some .WRITE_SEQ_EVENTS_ACTION_CODE
  | [], s => Or.inl rfl
  | (event, os) :: rest, s => by
    have h := handle_ready_code common event os s
    simp only [handle_all]
    cases hr : handle_ready common event os s with
    | running s1 =>
      rw [andThen_running]
      exact handle_all_code common rest s1
    | returned c s1 =>
      rw [andThen_returned]
      rw [hr] at h
      exact h

theorem wake_up_code (common : common_t) (N : Int)
    (events : List (epoll_event × syscall_results)) (s : server_state) :
    (wake_up common N events s).code = none ∨
    (wake_up common N events s).code = some .EPOLL_WAIT_ACTION_CODE ∨
    (wake_up common N events s).code = some .ACCEPT_CLIENT_ACTION_CODE ∨
    (wake_up common N events s).code = some .EPOLL_ADD_CLIENT_SOCKET_ACTION_CODE ∨
    (wake_up common N events s).code = some .WRITE_SEQ_EVENTS_ACTION_CODE := by
  unfold wake_up
  split
  · exact Or.inr (Or.inl rfl)
  · rcases handle_all_code common (events.take N.toNat) s with h | h | h | h
    · exact Or.inl h
    · exact Or.inr (Or.inr (Or.inl h))
    · exact Or.inr (Or.inr (Or.inr (Or.inl h)))
    · exact Or.inr (Or.inr (Or.inr (Or.inr h)))

theorem main_loop_code (common : common_t) :
    ∀ (run : List (Int × List (epoll_event × syscall_results))) (s : server_state),
      (main_loop common run s).code = none ∨
      (main_loop common run s).code = some .EPOLL_WAIT_ACTION_CODE ∨
      (main_loop common run s).code = some .ACCEPT_CLIENT_ACTION_CODE ∨
      (main_loop common run s).code = some .EPOLL_ADD_CLIENT_SOCKET_ACTION_CODE ∨
      (main_loop common run s).code = some .WRITE_SEQ_EVENTS_ACTION_CODE
  | [], s => Or.inl rfl
  | (N, events) :: rest, s => by
    have h := wake_up_code common N events s
    simp only [main_loop]
    cases hr : wake_up common N events s with
    | running s1 =>
      rw [andThen_running]
      exact main_loop_code common rest s1
    | returned c s1 =>
      rw [andThen_returned]
      rw [hr] at h
      exact h

/-- C11. Backend write atomicity in the server `main_loop`: after a
successful client read of a batch of `n = result / 2` records, one array of `n`
commands is handed to `write`; if `write` returns anything other than
`n * sizeof(struct snd_seq_event)` the loop returns
`WRITE_SEQ_EVENTS_ACTION_CODE` at once, whatever ready entries (`rest`) and
wake-ups (`later`) would follow and without a further write; if it returns
exactly that size the loop goes on with the next ready entry.  In both cases
exactly one write was issued for the read. -/
theorem backend_write_is_atomic (common : common_t) (event : epoll_event)
    (os : syscall_results) (s : server_state)
    (rest : List (epoll_event × syscall_results))
    (later : List (Int × List (epoll_event × syscall_results))) (N : Int)
    (hfd : event.fd ≠ common.server_fd) (hin : event.events &&& EPOLLIN ≠ 0)
    (hread : 0 < os.read) (hN : 0 < N) :
    (build_seq_events common.seq_addr (midi_event_at os.buffer) (os.read / 2).toNat).length =
      (os.read / 2).toNat ∧
    (os.write ≠ os.read / 2 * (sizeof_snd_seq_event : Int) →
      handle_all common ((event, os) :: rest) s =
        .returned .WRITE_SEQ_EVENTS_ACTION_CODE
          { s with seq_writes := s.seq_writes ++
              [build_seq_events common.seq_addr (midi_event_at os.buffer) (os.read / 2).toNat] } ∧
      main_loop common ((N, (event, os) :: rest) :: later) s =
        .returned .WRITE_SEQ_EVENTS_ACTION_CODE
          { s with seq_writes := s.seq_writes ++
              [build_seq_events common.seq_addr (midi_event_at os.buffer) (os.read / 2).toNat] }) ∧
    (os.write = os.read / 2 * (sizeof_snd_seq_event : Int) →
      handle_all common ((event, os) :: rest) s =
        handle_all common rest
          { s with seq_writes := s.seq_writes ++
              [build_seq_events common.seq_addr (midi_event_at os.buffer) (os.read / 2).toNat] }) ∧
    (handle_ready common event os s).state.seq_writes.length = s.seq_writes.length + 1 := by
  have hr := handle_ready_read common event os s hfd hin hread
  have htake : ((event, os) :: rest).take N.toNat =
      (event, os) :: rest.take (N.toNat - 1) := by
    obtain ⟨k, hk⟩ : ∃ k, N.toNat = k + 1 := ⟨N.toNat - 1, by omega⟩
    rw [hk]
    rfl
  refine ⟨build_seq_events_length _ _ _, ?_, ?_, ?_⟩
  · intro hw
    have hw2 : os.write ≠ os.read / 2 * 28 := hw
    rw [if_pos hw2] at hr
    have hall : ∀ evs : List (epoll_event × syscall_results),
        handle_all common ((event, os) :: evs) s =
          .returned .WRITE_SEQ_EVENTS_ACTION_CODE
            { s with seq_writes := s.seq_writes ++
                [build_seq_events common.seq_addr (midi_event_at os.buffer)
                  (os.read / 2).toNat] } := by
      intro evs
      simp only [handle_all, hr, andThen_returned]
    refine ⟨hall rest, ?_⟩
    have hNneg : ¬ N < 0 := by omega
    simp only [main_loop, wake_up, if_neg hNneg, htake, hall, andThen_returned]
  · intro hw
    have hw2 : ¬ os.write ≠ os.read / 2 * 28 := not_not.mpr hw
    rw [if_neg hw2] at hr
    simp only [handle_all, hr, andThen_running]
  · rw [handle_ready_read_seq_writes common event os s hfd hin hread]
    simp

theorem backend_write_is_atomic_witness :
    main_loop ⟨3, 4, 5, ⟨14, 0⟩⟩
        [(2, [(⟨EPOLLIN, 7⟩, ⟨0, 0, 4, [60, 100, 62, 0], 28⟩),
              (⟨EPOLLIN, 8⟩, ⟨0, 0, 2, [65, 90], 28⟩)]),
         (1, [(⟨EPOLLIN, 8⟩, ⟨0, 0, 2, [65, 0], 28⟩)])]
        ⟨[8, 7, 4], [], []⟩ =
      .returned .WRITE_SEQ_EVENTS_ACTION_CODE
        ⟨[8, 7, 4], [],
          [build_seq_events ⟨14, 0⟩ (midi_event_at [60, 100, 62, 0]) 2]⟩ :=
  ((backend_write_is_atomic ⟨3, 4, 5, ⟨14, 0⟩⟩ ⟨EPOLLIN, 7⟩ ⟨0, 0, 4, [60, 100, 62, 0], 28⟩
      ⟨[8, 7, 4], [], []⟩ [(⟨EPOLLIN, 8⟩, ⟨0, 0, 2, [65, 90], 28⟩)]
      [(1, [(⟨EPOLLIN, 8⟩, ⟨0, 0, 2, [65, 0], 28⟩)])] 2
      (by decide) (by decide) (by decide) (by decide)).2.1 (by decide)).2

theorem code_eq_some_iff {κ σ : Type} (o : outcome κ σ) (c : κ) :
    o.code = some c ↔ ∃ st, o = .returned c st := by
  cases o with
  | running s1 => simp [outcome.code]
  | returned c1 s1 =>
    simp only [outcome.code, Option.some.injEq, outcome.returned.injEq]
    constructor
    · intro h
      exact ⟨s1, h, rfl⟩
    · rintro ⟨_, h, _⟩
      exact h

/-- A loop that runs its body over a list while no body returns: it returns
`c` in state `st` exactly when some element is reached with the loop still
running and the body returns `c` in state `st` on that element. -/
theorem andThen_fold_returned_iff {α κ σ : Type} (step : α → σ → outcome κ σ)
    (F : List α → σ → outcome κ σ) (hnil : ∀ s, F [] s = .running s)
    (hcons : ∀ a l s, F (a :: l) s = (step a s).andThen (F l)) :
    ∀ (l : List α) (s : σ) (c : κ) (st : σ),
      F l s = .returned c st ↔
        ∃ pre a rest s1, l = pre ++ a :: rest ∧ F pre s = .running s1 ∧
          step a s1 = .returned c st
  | [], s, c, st => by
    rw [hnil]
    constructor
    · intro h
      cases h
    · rintro ⟨pre, a, rest, s1, hl, _, _⟩
      cases pre <;> cases hl
  | a0 :: tl, s, c, st => by
    rw [hcons]
    have ih := andThen_fold_returned_iff step F hnil hcons tl
    cases hstep : step a0 s with
    | running s' =>
      rw [andThen_running, ih s' c st]
      constructor
      · rintro ⟨pre, a, rest, s1, hl, hpre, ha⟩
        refine ⟨a0 :: pre, a, rest, s1, by rw [hl]; rfl, ?_, ha⟩
        rw [hcons, hstep, andThen_running]
        exact hpre
      · rintro ⟨pre, a, rest, s1, hl, hpre, ha⟩
        cases pre with
        | nil =>
          simp only [List.nil_append, List.cons.injEq] at hl
          rw [hnil] at hpre
          simp only [outcome.running.injEq] at hpre
          rw [← hl.1, ← hpre, hstep] at ha
          cases ha
        | cons b pre' =>
          simp only [List.cons_append, List.cons.injEq] at hl
          rw [hcons, ← hl.1, hstep, andThen_running] at hpre
          exact ⟨pre', a, rest, s1, hl.2, hpre, ha⟩
    | returned c0 st0 =>
      rw [andThen_returned]
      constructor
      · intro h
        refine ⟨[], a0, tl, s, rfl, hnil s, ?_⟩
        rw [hstep]
        exact h
      · rintro ⟨pre, a, rest, s1, hl, hpre, ha⟩
        cases pre with
        | nil =>
          simp only [List.nil_append, List.cons.injEq] at hl
          rw [hnil] at hpre
          simp only [outcome.running.injEq] at hpre
          rw [← hl.1, ← hpre, hstep] at ha
          exact ha
        | cons b pre' =>
          simp only [List.cons_append, List.cons.injEq] at hl
          rw [hcons, ← hl.1, hstep, andThen_returned] at hpre
          cases hpre

/-- The `for` loop returns exactly when it reaches a ready entry on which its
body returns. -/
theorem handle_all_returned_iff (common : common_t)
    (events : List (epoll_event × syscall_results)) (s : server_state) (c : action_code_t)
    (st : server_state) :
    handle_all common events s = .returned c st ↔
      ∃ pre entry rest s2, events = pre ++ entry :: rest ∧
        handle_all common pre s = .running s2 ∧
        handle_ready common entry.1 entry.2 s2 = .returned c st :=
  andThen_fold_returned_iff
    (fun (entry : epoll_event × syscall_results) s => handle_ready common entry.1 entry.2 s)
    (handle_all common) (fun _ => rfl) (fun entry _ _ => by cases entry; rfl) events s c st

/-- The loop `while (1)` returns exactly when it reaches a wake-up that returns. -/
theorem main_loop_returned_iff (common : common_t)
    (run : List (Int × List (epoll_event × syscall_results))) (s : server_state)
    (c : action_code_t) (st : server_state) :
    main_loop common run s = .returned c st ↔
      ∃ before wake later s1, run = before ++ wake :: later ∧
        main_loop common before s = .running s1 ∧
        wake_up common wake.1 wake.2 s1 = .returned c st :=
  andThen_fold_returned_iff
    (fun (wake : Int × List (epoll_event × syscall_results)) s =>
      wake_up common wake.1 wake.2 s)
    (main_loop common) (fun _ => rfl) (fun wake _ _ => by cases wake; rfl) run s c st

theorem wake_up_epoll_wait_iff (common : common_t) (N : Int)
    (events : List (epoll_event × syscall_results)) (s : server_state) :
    (wake_up common N events s).code = some .EPOLL_WAIT_ACTION_CODE ↔ N < 0 := by
  constructor
  · intro h
    by_contra hN
    unfold wake_up at h
    rw [if_neg hN] at h
    rcases handle_all_code common (events.take N.toNat) s with h' | h' | h' | h' <;>
      rw [h'] at h <;> cases h
  · intro hN
    simp only [wake_up, if_pos hN, outcome.code]

theorem handle_ready_accept_iff (common : common_t) (event : epoll_event)
    (os : syscall_results) (s : server_state) :
    (handle_ready common event os s).code = some .ACCEPT_CLIENT_ACTION_CODE ↔
      event.fd = common.server_fd ∧ os.accept4 < 0 := by
  unfold handle_ready
  simp only []
  split_ifs <;> simp_all [outcome.code]

theorem handle_ready_epoll_add_iff (common : common_t) (event : epoll_event)
    (os : syscall_results) (s : server_state) :
    (handle_ready common event os s).code = some .EPOLL_ADD_CLIENT_SOCKET_ACTION_CODE ↔
      event.fd = common.server_fd ∧ 0 ≤ os.accept4 ∧ os.epoll_ctl < 0 := by
  unfold handle_ready
  simp only []
  split_ifs <;> simp_all [outcome.code]

theorem handle_ready_write_iff (common : common_t) (event : epoll_event)
    (os : syscall_results) (s : server_state) :
    (handle_ready common event os s).code = some .WRITE_SEQ_EVENTS_ACTION_CODE ↔
      event.fd ≠ common.server_fd ∧ event.events &&& EPOLLIN ≠ 0 ∧ 0 < os.read ∧
        os.write ≠ os.read / 2 * (sizeof_snd_seq_event : Int) := by
  unfold handle_ready
  simp only []
  split_ifs <;> simp_all [outcome.code, sizeof_midi_event_t, sizeof_snd_seq_event]

/-- The loop returns `EPOLL_WAIT_ACTION_CODE` exactly when, still running, it
reaches a wake-up whose `epoll_wait` returned a negative count. -/
theorem main_loop_epoll_wait_iff (common : common_t)
    (run : List (Int × List (epoll_event × syscall_results))) (s : server_state) :
    (main_loop common run s).code = some .EPOLL_WAIT_ACTION_CODE ↔
      ∃ before N events later s1, run = before ++ (N, events) :: later ∧
        main_loop common before s = .running s1 ∧ N < 0 := by
  rw [code_eq_some_iff]
  constructor
  · rintro ⟨st, h⟩
    obtain ⟨before, ⟨N, events⟩, later, s1, hrun, hbefore, hwake⟩ :=
      (main_loop_returned_iff common run s _ st).mp h
    refine ⟨before, N, events, later, s1, hrun, hbefore, ?_⟩
    exact (wake_up_epoll_wait_iff common N events s1).mp
      ((code_eq_some_iff _ _).mpr ⟨st, hwake⟩)
  · rintro ⟨before, N, events, later, s1, hrun, hbefore, hN⟩
    obtain ⟨st, hwake⟩ := (code_eq_some_iff _ _).mp
      ((wake_up_epoll_wait_iff common N events s1).mpr hN)
    exact ⟨st, (main_loop_returned_iff common run s _ st).mpr
      ⟨before, (N, events), later, s1, hrun, hbefore, hwake⟩⟩

/-- The loop returns a code `c` of the `for` body exactly when, still running,
it reaches a ready entry on which the body returns `c`. -/
theorem main_loop_entry_iff (common : common_t) (c : action_code_t)
    (hc : c ≠ .EPOLL_WAIT_ACTION_CODE) (P : epoll_event → syscall_results → Prop)
    (hP : ∀ event os s2, (handle_ready common event os s2).code = some c ↔ P event os)
    (run : List (Int × List (epoll_event × syscall_results))) (s : server_state) :
    (main_loop common run s).code = some c ↔
      ∃ before N events later s1 pre event os rest s2,
        run = before ++ (N, events) :: later ∧ main_loop common before s = .running s1 ∧
        ¬ N < 0 ∧ events.take N.toNat = pre ++ (event, os) :: rest ∧
        handle_all common pre s1 = .running s2 ∧ P event os := by
  rw [code_eq_some_iff]
  constructor
  · rintro ⟨st, h⟩
    obtain ⟨before, ⟨N, events⟩, later, s1, hrun, hbefore, hwake⟩ :=
      (main_loop_returned_iff common run s _ st).mp h
    have hN : ¬ N < 0 := by
      intro hN
      simp only [wake_up, if_pos hN, outcome.returned.injEq] at hwake
      exact hc hwake.1.symm
    simp only [wake_up, if_neg hN] at hwake
    obtain ⟨pre, ⟨event, os⟩, rest, s2, htake, hpre, hready⟩ :=
      (handle_all_returned_iff common _ s1 _ st).mp hwake
    exact ⟨before, N, events, later, s1, pre, event, os, rest, s2, hrun, hbefore, hN, htake,
      hpre, (hP event os s2).mp ((code_eq_some_iff _ _).mpr ⟨st, hready⟩)⟩
  · rintro ⟨before, N, events, later, s1, pre, event, os, rest, s2, hrun, hbefore, hN, htake,
      hpre, hp⟩
    obtain ⟨st, hready⟩ := (code_eq_some_iff _ _).mp ((hP event os s2).mpr hp)
    refine ⟨st, (main_loop_returned_iff common run s _ st).mpr
      ⟨before, (N, events), later, s1, hrun, hbefore, ?_⟩⟩
    simp only [wake_up, if_neg hN]
    exact (handle_all_returned_iff common _ s1 _ st).mpr
      ⟨pre, (event, os), rest, s2, htake, hpre, hready⟩

/-- C12. Fatal paths of the server `main_loop`.  Run on any sequence of
wake-ups, the loop returns `EPOLL_WAIT_ACTION_CODE` exactly when, still
running, it reaches a wake-up whose `epoll_wait` returned a negative count;
it returns `ACCEPT_CLIENT_ACTION_CODE` exactly when, still running, it reaches
a ready entry that is the listener and on which `accept4` fails;
`EPOLL_ADD_CLIENT_SOCKET_ACTION_CODE` exactly when it reaches a ready listener
entry on which `accept4` succeeds and `epoll_ctl` fails; and
`WRITE_SEQ_EVENTS_ACTION_CODE` exactly when it reaches a ready client entry
whose read succeeds and whose backend write has the wrong size.  The same
holds of one wake-up and of one ready entry.  The loop returns no other code,
in particular never `READ_EVENTS_ACTION_CODE` or `SUCCESS_ACTION_CODE`, and the
values of these enumerators are pairwise distinct. -/
theorem main_loop_fatal_paths :
    (∀ (common : common_t) (run : List (Int × List (epoll_event × syscall_results)))
        (s : server_state),
      ((main_loop common run s).code = some .EPOLL_WAIT_ACTION_CODE ↔
        ∃ before N events later s1, run = before ++ (N, events) :: later ∧
          main_loop common before s = .running s1 ∧ N < 0) ∧
      ((main_loop common run s).code = some .ACCEPT_CLIENT_ACTION_CODE ↔
        ∃ before N events later s1 pre event os rest s2,
          run = before ++ (N, events) :: later ∧ main_loop common before s = .running s1 ∧
          ¬ N < 0 ∧ events.take N.toNat = pre ++ (event, os) :: rest ∧
          handle_all common pre s1 = .running s2 ∧
          event.fd = common.server_fd ∧ os.accept4 < 0) ∧
      ((main_loop common run s).code = some .EPOLL_ADD_CLIENT_SOCKET_ACTION_CODE ↔
        ∃ before N events later s1 pre event os rest s2,
          run = before ++ (N, events) :: later ∧ main_loop common before s = .running s1 ∧
          ¬ N < 0 ∧ events.take N.toNat = pre ++ (event, os) :: rest ∧
          handle_all common pre s1 = .running s2 ∧
          event.fd = common.server_fd ∧ 0 ≤ os.accept4 ∧ os.epoll_ctl < 0) ∧
      ((main_loop common run s).code = some .WRITE_SEQ_EVENTS_ACTION_CODE ↔
        ∃ before N events later s1 pre event os rest s2,
          run = before ++ (N, events) :: later ∧ main_loop common before s = .running s1 ∧
          ¬ N < 0 ∧ events.take N.toNat = pre ++ (event, os) :: rest ∧
          handle_all common pre s1 = .running s2 ∧
          event.fd ≠ common.server_fd ∧ event.events &&& EPOLLIN ≠ 0 ∧ 0 < os.read ∧
          os.write ≠ os.read / 2 * (sizeof_snd_seq_event : Int))) ∧
    (∀ (common : common_t) (N : Int) (events : List (epoll_event × syscall_results))
        (s : server_state),
      (wake_up common N events s).code = some .EPOLL_WAIT_ACTION_CODE ↔ N < 0) ∧
    (∀ (common : common_t) (event : epoll_event) (os : syscall_results) (s : server_state),
      ((handle_ready common event os s).code = some .ACCEPT_CLIENT_ACTION_CODE ↔
        event.fd = common.server_fd ∧ os.accept4 < 0) ∧
      ((handle_ready common event os s).code = some .EPOLL_ADD_CLIENT_SOCKET_ACTION_CODE ↔
        event.fd = common.server_fd ∧ 0 ≤ os.accept4 ∧ os.epoll_ctl < 0) ∧
      ((handle_ready common event os s).code = some .WRITE_SEQ_EVENTS_ACTION_CODE ↔
        event.fd ≠ common.server_fd ∧ event.events &&& EPOLLIN ≠ 0 ∧ 0 < os.read ∧
          os.write ≠ os.read / 2 * (sizeof_snd_seq_event : Int))) ∧
    (∀ (common : common_t) (run : List (Int × List (epoll_event × syscall_results)))
        (s : server_state),
      (main_loop common run s).code ∈
        [none, some .EPOLL_WAIT_ACTION_CODE, some .ACCEPT_CLIENT_ACTION_CODE,
          some .EPOLL_ADD_CLIENT_SOCKET_ACTION_CODE, some .WRITE_SEQ_EVENTS_ACTION_CODE] ∧
      (main_loop common run s).code ≠ some .READ_EVENTS_ACTION_CODE ∧
      (main_loop common run s).code ≠ some .SUCCESS_ACTION_CODE) ∧
    [action_code_t.SUCCESS_ACTION_CODE, .EPOLL_WAIT_ACTION_CODE, .ACCEPT_CLIENT_ACTION_CODE,
        .EPOLL_ADD_CLIENT_SOCKET_ACTION_CODE, .WRITE_SEQ_EVENTS_ACTION_CODE].map
      action_code_t.value = [0, -112, -111, -110, -108] := by
  refine ⟨?_, wake_up_epoll_wait_iff, ?_, ?_, by decide⟩
  · intro common run s
    exact ⟨main_loop_epoll_wait_iff common run s,
      main_loop_entry_iff common _ (by decide) _ (handle_ready_accept_iff common) run s,
      main_loop_entry_iff common _ (by decide) _ (handle_ready_epoll_add_iff common) run s,
      main_loop_entry_iff common _ (by decide) _ (handle_ready_write_iff common) run s⟩
  · intro common event os s
    exact ⟨handle_ready_accept_iff common event os s,
      handle_ready_epoll_add_iff common event os s,
      handle_ready_write_iff common event os s⟩
  · intro common run s
    rcases main_loop_code common run s with h | h | h | h | h <;> rw [h] <;> simp

theorem main_loop_fatal_paths_witness :
    (main_loop ⟨3, 4, 5, ⟨14, 0⟩⟩
        [(1, [(⟨EPOLLIN, 7⟩, ⟨0, 0, 2, [60, 100], 28⟩)]), (-1, []),
         (1, [(⟨EPOLLIN, 7⟩, ⟨0, 0, 2, [60, 0], 28⟩)])]
        ⟨[7, 4], [], []⟩).code = some .EPOLL_WAIT_ACTION_CODE ∧
    (main_loop ⟨3, 4, 5, ⟨14, 0⟩⟩
        [(2, [(⟨EPOLLIN, 7⟩, ⟨0, 0, 2, [60, 100], 28⟩), (⟨EPOLLIN, 4⟩, ⟨-1, 0, 0, [], 0⟩)])]
        ⟨[7, 4], [], []⟩).code = some .ACCEPT_CLIENT_ACTION_CODE ∧
    (main_loop ⟨3, 4, 5, ⟨14, 0⟩⟩
        [(1, [(⟨EPOLLIN, 7⟩, ⟨0, 0, 2, [60, 100], 28⟩)]),
         (1, [(⟨EPOLLIN, 4⟩, ⟨9, -1, 0, [], 0⟩)])]
        ⟨[7, 4], [], []⟩).code = some .EPOLL_ADD_CLIENT_SOCKET_ACTION_CODE :=
  ⟨((main_loop_fatal_paths.1 ⟨3, 4, 5, ⟨14, 0⟩⟩ _ ⟨[7, 4], [], []⟩).1).mpr
      ⟨[(1, [(⟨EPOLLIN, 7⟩, ⟨0, 0, 2, [60, 100], 28⟩)])], -1, [],
        [(1, [(⟨EPOLLIN, 7⟩, ⟨0, 0, 2, [60, 0], 28⟩)])], _, rfl, rfl, by decide⟩,
   ((main_loop_fatal_paths.1 ⟨3, 4, 5, ⟨14, 0⟩⟩ _ ⟨[7, 4], [], []⟩).2.1).mpr
      ⟨[], 2, [(⟨EPOLLIN, 7⟩, ⟨0, 0, 2, [60, 100], 28⟩), (⟨EPOLLIN, 4⟩, ⟨-1, 0, 0, [], 0⟩)],
        [], _, [(⟨EPOLLIN, 7⟩, ⟨0, 0, 2, [60, 100], 28⟩)], ⟨EPOLLIN, 4⟩, ⟨-1, 0, 0, [], 0⟩, [],
        _, rfl, rfl, by decide, rfl, rfl, by decide, by decide⟩,
   ((main_loop_fatal_paths.1 ⟨3, 4, 5, ⟨14, 0⟩⟩ _ ⟨[7, 4], [], []⟩).2.2.1).mpr
      ⟨[(1, [(⟨EPOLLIN, 7⟩, ⟨0, 0, 2, [60, 100], 28⟩)])], 1,
        [(⟨EPOLLIN, 4⟩, ⟨9, -1, 0, [], 0⟩)], [], _, [], ⟨EPOLLIN, 4⟩, ⟨9, -1, 0, [], 0⟩, [],
        _, rfl, rfl, by decide, rfl, rfl, by decide, by decide, by decide⟩⟩

end Server

/-! ## Device failure during a pass -/

namespace Client

theorem scan_lines_append (gpio : Nat → gpio_answers) :
    ∀ (before after : List Nat) (s : scan_state),
      scan_lines gpio (before ++ after) s =
        match scan_lines gpio before s with
        | .completed sc => scan_lines gpio after sc
        | o => o
  | [], _, _ => rfl
  | i :: rest, after, s => by
    simp only [List.cons_append, scan_lines]
    split_ifs
    · rfl
    · rfl
    · cases scan_inputs i (gpio i).values (List.range 8) s with
      | none => rfl
      | some s1 => exact scan_lines_append gpio rest after s1

theorem range_five_split :
    ∀ i < 5, List.range 5 = List.range i ++ i :: (List.range 5).drop (i + 1) := by
  decide

/-- C13. Device failure during a client scan pass that has reached output line
`i` (`0 ≤ i ≤ 4`, the lines before it were driven and read): if driving line
`i` fails the scan loop returns `IOCTL_GPIO_SET_ACTION_CODE`, and if reading
the inputs for line `i` fails it returns `IOCTL_GPIO_GET_ACTION_CODE`; in both
cases nothing is written to the server in that iteration or after it, whatever
events `before.midi_events` the lines before `i` had accumulated. -/
theorem device_failure_sends_nothing (inp : iteration_input) (s : client_state)
    (rest : List iteration_input) (i : Nat) (before : scan_state) (hi : i < 5)
    (hbefore : scan_lines inp.gpio (List.range i) { keys := s.keys, midi_events := [] } =
      .completed before) :
    ((inp.gpio i).set_result < 0 →
      scan_loop (inp :: rest) s = some (.returned .IOCTL_GPIO_SET_ACTION_CODE
        { keys := before.keys, gpio_timeout := s.gpio_timeout, sent := s.sent,
          slept := s.slept })) ∧
    (¬ (inp.gpio i).set_result < 0 → (inp.gpio i).get_result < 0 →
      scan_loop (inp :: rest) s = some (.returned .IOCTL_GPIO_GET_ACTION_CODE
        { keys := before.keys, gpio_timeout := s.gpio_timeout, sent := s.sent,
          slept := s.slept })) := by
  have hsplit := range_five_split i hi
  have hlines := scan_lines_append inp.gpio (List.range i) (i :: (List.range 5).drop (i + 1))
    { keys := s.keys, midi_events := [] }
  rw [← hsplit, hbefore] at hlines
  simp only [] at hlines
  refine ⟨?_, ?_⟩
  · intro hset
    have hfail : ∀ tail : List Nat, scan_lines inp.gpio (i :: tail) before =
        .failed .IOCTL_GPIO_SET_ACTION_CODE before := by
      intro tail
      simp only [scan_lines, if_pos hset]
    rw [hfail] at hlines
    simp only [scan_loop, scan_iteration, hlines]
  · intro hset hget
    have hfail : ∀ tail : List Nat, scan_lines inp.gpio (i :: tail) before =
        .failed .IOCTL_GPIO_GET_ACTION_CODE before := by
      intro tail
      simp only [scan_lines, if_neg hset, if_pos hget]
    rw [hfail] at hlines
    simp only [scan_loop, scan_iteration, hlines]

theorem device_failure_sends_nothing_witness :
    scan_lines gpio_set_fails_on_line_1 (List.range 1) ⟨keys_init, []⟩ =
      .completed ⟨keys_init.set 35 1, [⟨71, 100⟩]⟩ ∧
    scan_loop [⟨gpio_set_fails_on_line_1, 2⟩, ⟨gpio_reading reading_key0_held, 2⟩]
        client_state.init =
      some (.returned .IOCTL_GPIO_SET_ACTION_CODE
        { keys := keys_init.set 35 1, gpio_timeout := 1, sent := [], slept := [] }) ∧
    scan_loop [⟨gpio_get_fails_on_line_1, 2⟩, ⟨gpio_reading reading_key0_held, 2⟩]
        client_state.init =
      some (.returned .IOCTL_GPIO_GET_ACTION_CODE
        { keys := keys_init.set 35 1, gpio_timeout := 1, sent := [], slept := [] }) :=
  ⟨rfl,
   (device_failure_sends_nothing ⟨gpio_set_fails_on_line_1, 2⟩ client_state.init
      [⟨gpio_reading reading_key0_held, 2⟩] 1 ⟨keys_init.set 35 1, [⟨71, 100⟩]⟩
      (by decide) rfl).1 (by decide),
   (device_failure_sends_nothing ⟨gpio_get_fails_on_line_1, 2⟩ client_state.init
      [⟨gpio_reading reading_key0_held, 2⟩] 1 ⟨keys_init.set 35 1, [⟨71, 100⟩]⟩
      (by decide) rfl).2 (by decide) (by decide)⟩

/-! ## The table and the array of the pending batch -/

set_option maxRecDepth 100000 in
/-- C14. Shape of the table `key_hash` over the 40 cells a pass visits: every
entry is at most 36, an index into `keys[37]`; every logical key 1..36 is the
entry of exactly one cell; entry 0 is that of cell (2,7) and of exactly the
three cells without an initialiser, (0,1), (0,3), (0,5); and on the 37 cells
that have an initialiser the table is a bijection onto 0..36 (the cells are
pairwise different cells of the matrix and their entries are 0, 1, ..., 36). -/
theorem key_hash_shape :
    scan_order.length = 40 ∧
    (∀ i < 5, ∀ j < 8, key_hash i j ≤ 36) ∧
    (∀ k, 1 ≤ k → k ≤ 36 →
      (scan_order.filter (fun d => key_hash d.1 d.2 = k)).length = 1) ∧
    key_hash 2 7 = 0 ∧
    scan_order.filter (fun d => key_hash d.1 d.2 = 0) = [(0, 1), (0, 3), (0, 5), (2, 7)] ∧
    scan_order.filter (fun d => (key_hash_init.lookup d).isNone) = [(0, 1), (0, 3), (0, 5)] ∧
    key_hash_init.length = 37 ∧
    (key_hash_init.map (fun e => e.1)).Nodup ∧
    (∀ e ∈ key_hash_init, e.1 ∈ scan_order ∧ key_hash e.1.1 e.1.2 = e.2) ∧
    key_hash_init.map (fun e => e.2) = List.range 37 := by
  refine ⟨rfl, fun i _ j _ => key_hash_le i j, ?_, rfl, key_hash_zero_cells, ?_, rfl, ?_, ?_, ?_⟩
  · intro k hk1 hk36
    exact key_hash_cells_of_key k (by omega) (by omega)
  · decide
  · decide
  · decide
  · decide

/-- C15. Pending-batch buffer safety in the client scan pass: every append
`midi_events[midi_event_count++]` should write to an index below
`CONFIG_MAX_MIDI_EVENTS = 16`.  With all 37 keys pressed in one pass from the
all-released cache, the first 19 cells visited fill the 16 entries, and the
next cell, (2,3), differs from the cache again: the append is at index 16,
past the end of the array, and the pass has no defined outcome. -/
theorem midi_events_overflow :
    CONFIG_MAX_MIDI_EVENTS = 16 ∧
    (∃ sc : scan_state,
      scan_cells reading_all_keys_held (scan_order.take 19) ⟨keys_init, []⟩ = some sc ∧
      sc.midi_events.length = CONFIG_MAX_MIDI_EVENTS ∧
      scan_order.drop 19 = (2, 3) :: scan_order.drop 20 ∧
      sc.keys.getD (key_hash 2 3) 0 ≠ reading_all_keys_held 2 3 ∧
      scan_cell 2 3 (reading_all_keys_held 2 3) sc = none) ∧
    scan_pass keys_init reading_all_keys_held = .out_of_bounds := by
  refine ⟨rfl, ⟨_, rfl, rfl, rfl, ?_, rfl⟩, rfl⟩
  decide

end Client

/-! ## Pitch names -/

/-- C16. Pitch-name parsing for the synthetic test note: for every note letter
`L` in C, D, E, F, G, A, B, every accidental (none, `#`, `b`) and every octave
digit `d`, `get_key` on the string `L[accidental]d` returns
`(semitone L + a + 12 * d) mod 256`, with `a` = +1 for `#`, -1 for `b`, 0 for
none, and the server and client copies agree; `C#3` is 37, `Db4` is 49, `E5`
is 64, and the enharmonic spellings `X#d` and `Ybd`, with `Y` the letter after
`X`, give the same key. -/
theorem get_key_pitch_names :
    (∀ L ∈ ['C', 'D', 'E', 'F', 'G', 'A', 'B'], ∀ acc ∈ [[], ['#'], ['b']], ∀ d < 10,
      Server.get_key (L :: acc ++ [digit_char d]) = pitch_key L acc d ∧
      Client.get_key (L :: acc ++ [digit_char d]) = pitch_key L acc d) ∧
    Server.get_key ['C', '#', '3'] = 37 ∧
    Server.get_key ['D', 'b', '4'] = 49 ∧
    Server.get_key ['E', '5'] = 64 ∧
    (∀ p ∈ [('C', 'D'), ('D', 'E'), ('F', 'G'), ('G', 'A'), ('A', 'B')], ∀ d < 10,
      Server.get_key [p.1, '#', digit_char d] = Server.get_key [p.2, 'b', digit_char d]) ∧
    Server.get_key = Client.get_key := by
  refine ⟨?_, rfl, rfl, rfl, ?_, rfl⟩
  · have hs : ∀ L ∈ ['C', 'D', 'E', 'F', 'G', 'A', 'B'], ∀ acc ∈ [[], ['#'], ['b']], ∀ d < 10,
        Server.get_key (L :: acc ++ [digit_char d]) = pitch_key L acc d := by decide
    intro L hL acc hacc d hd
    exact ⟨hs L hL acc hacc d hd, hs L hL acc hacc d hd⟩
  · decide

end GpioMidi
